import Mathlib

/-!
# profiling_timer: a shallow embedding of the timestamp recorder

The development follows `profiling_timer.c` (the C recorder with a manual
count / capacity array) and the clock layer it shares with `profiling_timer.h`;
the `std::vector` recorder of `profiling_timer.h` is embedded next to it.

Conventions of the embedding:

* `uint64_t` and `size_t` are 64 bits wide; values are natural numbers and every
  arithmetic step of the source that can wrap carries an explicit `% 2 ^ 64`.
* The heap block behind `timestamps` is a list of cells; `none` is `NULL`.
* What the environment decides (the platform clock reading, the answer of
  `realloc`) is an explicit argument of the operation that consults it.
* An access outside the allocated block (undefined behaviour in C) is the
  outcome `undefined`, carrying the recorder state at the faulting access.
* The mutex is not part of the recorder state: every operation locks on entry
  and unlocks on exit, so the operations describe the critical sections run one
  at a time. The section on threads adds the mutex and the interleaving of the
  steps of `ProTi_Start`.
-/

namespace ProfilingTimer

/-! ## Machine arithmetic -/

/-- Reduction of a natural number to a 64-bit unsigned value. -/
def wrap64 (n : Nat) : Nat := n % 2 ^ 64

/-- Subtraction of `uint64_t` values: `a - b` computed modulo `2 ^ 64`. -/
def sub64 (a b : Nat) : Nat := (a + (2 ^ 64 - b % 2 ^ 64)) % 2 ^ 64

/-- The conversion `(uint64_t)x` of a signed integer. -/
def castU64 (x : Int) : Nat := (x % 2 ^ 64).toNat

/-! ## Clock layer -/

/-- Predefined platform symbols tested by the conditional block of the source. -/
structure Platform where
  _WIN32 : Bool
  _WIN64 : Bool
  __APPLE__ : Bool
  __MACH__ : Bool
  __unix__ : Bool
  __unix : Bool
  __linux__ : Bool
  BSD : Bool
  __FreeBSD__ : Bool
  __OpenBSD__ : Bool
  __NetBSD__ : Bool
deriving DecidableEq, Repr

/-- The four clock backends, one per group of the conditional block. -/
inductive Backend where
  | windows
  | mach
  | posix
  | chrono
deriving DecidableEq, Repr

/-- The group kept by `#if ... #elif ... #elif ... #else ... #endif`
(profiling_timer.c lines 26, 39, 45, 54). -/
def selectBackend (p : Platform) : Backend :=
  if p._WIN32 || p._WIN64 then Backend.windows
  else if p.__APPLE__ || p.__MACH__ then Backend.mach
  else if p.__unix__ || p.__unix || p.__linux__ || p.BSD || p.__FreeBSD__
      || p.__OpenBSD__ || p.__NetBSD__ then Backend.posix
  else Backend.chrono

/-- The line `mode = k;` that closes a group, if the group has one
(profiling_timer.c lines 44, 53, 59, profiling_timer.h lines 38, 46, 52; the
Windows group has none). The line stands at file scope, outside any function. -/
def fileScopeModeLine : Backend → Option Nat
  | Backend.windows => none
  | Backend.mach => some 1
  | Backend.posix => some 2
  | Backend.chrono => some 3

/-- The numbering of the backends documented in the comment of lines 17-22. -/
def documentedMode : Backend → Nat
  | Backend.windows => 0
  | Backend.mach => 1
  | Backend.posix => 2
  | Backend.chrono => 3

/-- Whether the kept group is made of declarations only. A line `mode = k;` at
file scope is not a statement that runs: in C++ it is a syntax error, in C a
declaration without a type that redefines `mode` against `static int mode = 0;`.
A kept group that has such a line leaves no program to run. -/
def wellFormedGroup (p : Platform) : Bool :=
  (fileScopeModeLine (selectBackend p)).isNone

/-- The file-scope variable `mode` of the built program: its initialiser (line
24) is all that ever gives it a value; `none` when the kept group is ill-formed
and there is no program. -/
def mode (p : Platform) : Option Nat :=
  if wellFormedGroup p then some 0 else none

/-- The structure `struct timespec` filled by `clock_gettime`. -/
structure timespec where
  tv_sec : Int
  tv_nsec : Int
deriving DecidableEq, Repr

/-- What the platform primitive reports when a backend reads its clock. -/
inductive PlatformClock where
  | QueryPerformanceCounter (QuadPart : Int)
  | mach_absolute_time (ticks : Nat)
  | clock_gettime (ts : timespec)
  | steady_clock (count : Int)
deriving DecidableEq, Repr

/-- The function `GetRawTime` of each backend, as a function of what the
platform primitive reported (lines 28-38, 41-43, 47-52, 56-58). The result is a
`uint64_t`. -/
def GetRawTime : PlatformClock → Nat
  | PlatformClock.QueryPerformanceCounter q => castU64 q
  | PlatformClock.mach_absolute_time v => wrap64 v
  | PlatformClock.clock_gettime ts =>
      wrap64 (wrap64 (castU64 ts.tv_sec * 1000000000) + castU64 ts.tv_nsec)
  | PlatformClock.steady_clock c => castU64 c

/-- The function `ProTi_ReturnRawTime` (lines 83-85). -/
def ProTi_ReturnRawTime (clk : PlatformClock) : Nat := GetRawTime clk

/-- The function `ProTi_ReturnElapsedTime` (lines 87-89); `PROGRAM_START` is the
constant of line 62. -/
def ProTi_ReturnElapsedTime (PROGRAM_START : Nat) (clk : PlatformClock) : Nat :=
  sub64 (GetRawTime clk) PROGRAM_START

/-- The function `ProTi_ReturnMode` (lines 91-93), reading the variable `mode`. -/
def ProTi_ReturnMode (modeVar : Nat) : Nat := modeVar

/-! ## The recorder -/

/-- The struct `ProTi` (lines 64-69) without its mutex. -/
structure ProTi where
  timestamps : Option (List Nat)
  count : Nat
  capacity : Nat
deriving DecidableEq, Repr

/-- Result of an operation that dereferences `timestamps`. -/
inductive Outcome (α : Type) where
  | ok (a : α)
  | undefined (faultAt : ProTi)
deriving DecidableEq, Repr

/-- The library call `realloc(ptr, size)`. `answer = none`: the allocator returns
`NULL`. `answer = some junk`: it returns a block of `size / 8` cells that keeps
the old contents; the indeterminate contents of the added cells are `junk`. -/
def realloc (ptr : Option (List Nat)) (size : Nat) (answer : Option (Nat → Nat)) :
    Option (List Nat) :=
  match answer with
  | none => none
  | some junk =>
      let old := ptr.getD []
      let n := size / 8
      some (old.take n ++ (List.range (n - old.length)).map (fun j => wrap64 (junk j)))

/-- The function `ProTi_Init` (lines 71-76). -/
def ProTi_Init (timer : ProTi) : ProTi :=
  { timer with timestamps := none, count := 0, capacity := 0 }

/-- The function `ProTi_Start` (lines 95-103). -/
def ProTi_Start (timer : ProTi) (answer : Option (Nat → Nat)) (clk : PlatformClock) :
    Outcome ProTi :=
  let timer1 : ProTi :=
    if timer.count = timer.capacity then
      let capacity := if timer.capacity ≠ 0 then wrap64 (timer.capacity * 2) else 1
      { timer with
        capacity := capacity
        timestamps := realloc timer.timestamps (wrap64 (capacity * 8)) answer }
    else timer
  match timer1.timestamps with
  | none => Outcome.undefined timer1
  | some block =>
      if timer1.count < block.length then
        Outcome.ok { timer1 with
          timestamps := some (block.set timer1.count (GetRawTime clk))
          count := wrap64 (timer1.count + 1) }
      else Outcome.undefined timer1

/-- The function `ProTi_Stop` (lines 105-111). -/
def ProTi_Stop (timer : ProTi) (index : Nat) (clk : PlatformClock) : Outcome (ProTi × Nat) :=
  let now := GetRawTime clk
  match timer.timestamps with
  | none => Outcome.undefined timer
  | some block =>
      match block.get? index with
      | none => Outcome.undefined timer
      | some ts => Outcome.ok (timer, sub64 now ts)

/-- The function `ProTi_ReturnTimestamp` (lines 113-118). -/
def ProTi_ReturnTimestamp (timer : ProTi) (index : Nat) : Outcome (ProTi × Nat) :=
  match timer.timestamps with
  | none => Outcome.undefined timer
  | some block =>
      match block.get? index with
      | none => Outcome.undefined timer
      | some ts => Outcome.ok (timer, ts)

/-- The function `ProTi_GetTimestampCount` (lines 120-125). -/
def ProTi_GetTimestampCount (timer : ProTi) : ProTi × Nat :=
  (timer, timer.count)

/-- The function `ProTi_ClearTimestamps` (lines 127-131). -/
def ProTi_ClearTimestamps (timer : ProTi) : ProTi :=
  { timer with count := 0 }

/-! ## Sequences of recorder operations -/

/-- One call of the recorder interface together with what the environment
supplies to it: the answer of `realloc` and the clock reading for `ProTi_Start`,
the clock reading for `ProTi_Stop`. -/
inductive Op where
  | start (answer : Option (Nat → Nat)) (clk : PlatformClock)
  | stop (index : Nat) (clk : PlatformClock)
  | returnTimestamp (index : Nat)
  | getTimestampCount
  | clearTimestamps

/-- One call on the recorder: the new state and the value returned (`none` for
the `void` functions). -/
def step (timer : ProTi) : Op → Outcome (ProTi × Option Nat)
  | Op.start answer clk =>
      match ProTi_Start timer answer clk with
      | Outcome.ok t => Outcome.ok (t, none)
      | Outcome.undefined f => Outcome.undefined f
  | Op.stop index clk =>
      match ProTi_Stop timer index clk with
      | Outcome.ok (t, v) => Outcome.ok (t, some v)
      | Outcome.undefined f => Outcome.undefined f
  | Op.returnTimestamp index =>
      match ProTi_ReturnTimestamp timer index with
      | Outcome.ok (t, v) => Outcome.ok (t, some v)
      | Outcome.undefined f => Outcome.undefined f
  | Op.getTimestampCount =>
      Outcome.ok ((ProTi_GetTimestampCount timer).1, some (ProTi_GetTimestampCount timer).2)
  | Op.clearTimestamps => Outcome.ok (ProTi_ClearTimestamps timer, none)

/-- A sequence of calls, run in order; the values returned are collected. -/
def runOps (timer : ProTi) : List Op → Outcome (ProTi × List (Option Nat))
  | [] => Outcome.ok (timer, [])
  | op :: ops =>
      match step timer op with
      | Outcome.undefined f => Outcome.undefined f
      | Outcome.ok (t, out) =>
          match runOps t ops with
          | Outcome.undefined f => Outcome.undefined f
          | Outcome.ok (t', outs) => Outcome.ok (t', out :: outs)

/-- Number of `start` calls in a sequence after its last `clearTimestamps`,
counting on from `n`. -/
def startsSinceClear (n : Nat) : List Op → Nat
  | [] => n
  | Op.start _ _ :: ops => startsSinceClear (n + 1) ops
  | Op.clearTimestamps :: ops => startsSinceClear 0 ops
  | _ :: ops => startsSinceClear n ops

/-- The ticks the clock returned to the `start` calls made after the last
`clearTimestamps`, in call order, continuing the list `acc`. -/
def ticksSinceClear (acc : List Nat) : List Op → List Nat
  | [] => acc
  | Op.start _ clk :: ops => ticksSinceClear (acc ++ [GetRawTime clk]) ops
  | Op.clearTimestamps :: ops => ticksSinceClear [] ops
  | _ :: ops => ticksSinceClear acc ops

/-- Total number of `start` calls in a sequence. -/
def countStarts : List Op → Nat
  | [] => 0
  | Op.start _ _ :: ops => countStarts ops + 1
  | _ :: ops => countStarts ops

/-- Every `start` call of the sequence gets a block from `realloc`. -/
def allocsSucceed : List Op → Bool
  | [] => true
  | Op.start answer _ :: ops => answer.isSome && allocsSucceed ops
  | _ :: ops => allocsSucceed ops

/-- Every index passed to `stop` / `returnTimestamp` is below the number of
entries recorded at the time of the call; `n` entries are recorded initially. -/
def indicesValid (n : Nat) : List Op → Bool
  | [] => true
  | Op.start _ _ :: ops => indicesValid (n + 1) ops
  | Op.stop index _ :: ops => decide (index < n) && indicesValid n ops
  | Op.returnTimestamp index :: ops => decide (index < n) && indicesValid n ops
  | Op.getTimestampCount :: ops => indicesValid n ops
  | Op.clearTimestamps :: ops => indicesValid 0 ops

/-- The cells of the allocated block (no cells behind `NULL`). -/
def storage (t : ProTi) : List Nat := t.timestamps.getD []

/-- The recorded sequence: the first `count` cells. -/
def entries (t : ProTi) : List Nat := (storage t).take t.count

/-- Representation invariant of the recorder: the block holds `capacity` cells,
its byte size `capacity * 8` fits `size_t`, and `count` does not exceed it. -/
def WF (t : ProTi) : Prop :=
  t.count ≤ t.capacity ∧ t.capacity < 2 ^ 61 ∧ (storage t).length = t.capacity

instance (t : ProTi) : Decidable (WF t) := by
  unfold WF
  infer_instance

/-! ## The process: file-scope variables and one recorder -/

/-- The file-scope variables `mode` and `PROGRAM_START` and a recorder. -/
structure Program where
  mode : Nat
  PROGRAM_START : Nat
  timer : ProTi
deriving DecidableEq, Repr

/-- Static initialisation (lines 24-62) followed by `ProTi_Init` on a recorder:
`clk` is the clock reading taken by the initialiser of `PROGRAM_START`. There
is a program only on a platform whose kept group is well-formed. -/
def startProgram (p : Platform) (clk : PlatformClock) (timer : ProTi) : Option Program :=
  match mode p with
  | some m => some { mode := m, PROGRAM_START := GetRawTime clk, timer := ProTi_Init timer }
  | none => none

/-- One call of the interface: a clock query or a recorder operation. -/
inductive Call where
  | returnRawTime (clk : PlatformClock)
  | returnElapsedTime (clk : PlatformClock)
  | returnMode
  | recorder (op : Op)

/-- One interface call on the process. -/
def call (s : Program) : Call → Outcome (Program × Option Nat)
  | Call.returnRawTime clk => Outcome.ok (s, some (ProTi_ReturnRawTime clk))
  | Call.returnElapsedTime clk =>
      Outcome.ok (s, some (ProTi_ReturnElapsedTime s.PROGRAM_START clk))
  | Call.returnMode => Outcome.ok (s, some (ProTi_ReturnMode s.mode))
  | Call.recorder op =>
      match step s.timer op with
      | Outcome.ok (t, out) => Outcome.ok ({ s with timer := t }, out)
      | Outcome.undefined f => Outcome.undefined f

/-- A sequence of interface calls, run in order. -/
def exec (s : Program) : List Call → Outcome (Program × List (Option Nat))
  | [] => Outcome.ok (s, [])
  | c :: cs =>
      match call s c with
      | Outcome.undefined f => Outcome.undefined f
      | Outcome.ok (s1, out) =>
          match exec s1 cs with
          | Outcome.undefined f => Outcome.undefined f
          | Outcome.ok (s2, outs) => Outcome.ok (s2, out :: outs)

/-- The capacity `ProTi_Start` leaves behind when it gets its block: unchanged
while there is room, else 1 from 0 and twice the old value otherwise. -/
def capacityAfterStart (t : ProTi) : Nat :=
  if t.count = t.capacity then (if t.capacity = 0 then 1 else t.capacity * 2) else t.capacity

/-! ## Sample inputs -/

/-- A recorder variable before `ProTi_Init`. -/
def blankTimer : ProTi := { timestamps := none, count := 0, capacity := 0 }

/-- An allocator answer: the block is granted, its new cells hold `0xAA..`. -/
def granted : Option (Nat → Nat) := some (fun _ => 12297829382473034410)

/-- The recorder after starts at ticks 1000 and 1050. -/
def twoStarts : ProTi := { timestamps := some [1000, 1050], count := 2, capacity := 2 }

/-- The recorder after a start at tick 1000 and a clear. -/
def clearedOnce : ProTi := { timestamps := some [1000], count := 0, capacity := 1 }

/-- Two starts, a stop, a clear, one more start, then the readers. -/
def sampleOps : List Op :=
  [Op.start granted (PlatformClock.mach_absolute_time 1000),
   Op.start granted (PlatformClock.mach_absolute_time 1050),
   Op.stop 1 (PlatformClock.mach_absolute_time 1200),
   Op.getTimestampCount,
   Op.clearTimestamps,
   Op.start granted (PlatformClock.mach_absolute_time 1300),
   Op.returnTimestamp 0,
   Op.getTimestampCount]

/-- Three starts in a row: the block is reallocated at each of them. -/
def threeStarts : List Op :=
  [Op.start granted (PlatformClock.mach_absolute_time 7),
   Op.start granted (PlatformClock.clock_gettime { tv_sec := 3, tv_nsec := 5 }),
   Op.start granted (PlatformClock.steady_clock 9),
   Op.returnTimestamp 2]

/-- A Linux build: only the symbols `__unix__` and `__linux__` are defined. -/
def linuxBuild : Platform :=
  { _WIN32 := false, _WIN64 := false, __APPLE__ := false, __MACH__ := false,
    __unix__ := true, __unix := false, __linux__ := true, BSD := false,
    __FreeBSD__ := false, __OpenBSD__ := false, __NetBSD__ := false }

/-- A macOS build: only the symbols `__APPLE__` and `__MACH__` are defined. -/
def macBuild : Platform :=
  { _WIN32 := false, _WIN64 := false, __APPLE__ := true, __MACH__ := true,
    __unix__ := false, __unix := false, __linux__ := false, BSD := false,
    __FreeBSD__ := false, __OpenBSD__ := false, __NetBSD__ := false }

/-- A build for a platform that defines none of the tested symbols. -/
def otherBuild : Platform :=
  { _WIN32 := false, _WIN64 := false, __APPLE__ := false, __MACH__ := false,
    __unix__ := false, __unix := false, __linux__ := false, BSD := false,
    __FreeBSD__ := false, __OpenBSD__ := false, __NetBSD__ := false }

/-- A 64-bit Windows build: the symbols `_WIN32` and `_WIN64` are defined. -/
def windowsBuild : Platform :=
  { _WIN32 := true, _WIN64 := true, __APPLE__ := false, __MACH__ := false,
    __unix__ := false, __unix := false, __linux__ := false, BSD := false,
    __FreeBSD__ := false, __OpenBSD__ := false, __NetBSD__ := false }

/-- Clock queries around a start, a count query and a clear. -/
def sampleCalls : List Call :=
  [Call.returnElapsedTime (PlatformClock.QueryPerformanceCounter 1050),
   Call.recorder (Op.start granted (PlatformClock.QueryPerformanceCounter 1050)),
   Call.recorder Op.getTimestampCount,
   Call.returnMode,
   Call.recorder Op.clearTimestamps,
   Call.returnElapsedTime (PlatformClock.QueryPerformanceCounter 1200)]

/-- The process started on `windowsBuild` at tick 1000. -/
def startedOnWindows : Program :=
  { mode := 0, PROGRAM_START := 1000,
    timer := { timestamps := none, count := 0, capacity := 0 } }

/-- The process after `sampleCalls`, started on `windowsBuild` at tick 1000. -/
def afterSampleCalls : Program :=
  { mode := 0, PROGRAM_START := 1000,
    timer := { timestamps := some [1050], count := 0, capacity := 1 } }


/-! ## The C++ recorder (profiling_timer.h)

The class is also called `ProTi`; here it lives under `Cpp`. The vector
`timestamps` is the list of its elements. Its buffer is managed by the library:
a failed allocation inside `push_back` (an exception under `noexcept`, so the
process terminates) is not part of the model. Indexing at or beyond `size()` is
undefined and yields `none`. -/

/-- The data member `timestamps` of the class `ProTi` (profiling_timer.h line
104). -/
structure Cpp.ProTi where
  timestamps : List Nat
deriving DecidableEq, Repr

/-- The implicit default constructor: an empty vector. -/
def Cpp.ProTi.construct : Cpp.ProTi := { timestamps := [] }

/-- The method `Start` (profiling_timer.h lines 77-80). -/
def Cpp.ProTi.Start (self : Cpp.ProTi) (clk : PlatformClock) : Cpp.ProTi :=
  { timestamps := self.timestamps ++ [GetRawTime clk] }

/-- The method `Stop` (profiling_timer.h lines 82-86). -/
def Cpp.ProTi.Stop (self : Cpp.ProTi) (index : Nat) (clk : PlatformClock) : Option Nat :=
  let now := wrap64 (GetRawTime clk)
  match self.timestamps.get? index with
  | none => none
  | some ts => some (sub64 now ts)

/-- The method `ReturnTimestamp` (profiling_timer.h lines 88-91). -/
def Cpp.ProTi.ReturnTimestamp (self : Cpp.ProTi) (index : Nat) : Option Nat :=
  self.timestamps.get? index

/-- The method `GetTimestampCount` (profiling_timer.h lines 93-96). -/
def Cpp.ProTi.GetTimestampCount (self : Cpp.ProTi) : Nat :=
  self.timestamps.length

/-- The method `ClearTimestamps` (profiling_timer.h lines 98-101). -/
def Cpp.ProTi.ClearTimestamps (_self : Cpp.ProTi) : Cpp.ProTi :=
  { timestamps := [] }

/-- One call on the C++ recorder: the new object and the value returned. The
allocator answer carried by `Op.start` belongs to the C recorder and is not
consulted. -/
def Cpp.step (self : Cpp.ProTi) : Op → Option (Cpp.ProTi × Option Nat)
  | Op.start _ clk => some (Cpp.ProTi.Start self clk, none)
  | Op.stop index clk =>
      match Cpp.ProTi.Stop self index clk with
      | some v => some (self, some v)
      | none => none
  | Op.returnTimestamp index =>
      match Cpp.ProTi.ReturnTimestamp self index with
      | some v => some (self, some v)
      | none => none
  | Op.getTimestampCount => some (self, some (Cpp.ProTi.GetTimestampCount self))
  | Op.clearTimestamps => some (Cpp.ProTi.ClearTimestamps self, none)

/-- A sequence of calls on the C++ recorder, run in order. -/
def Cpp.runOps (self : Cpp.ProTi) : List Op → Option (Cpp.ProTi × List (Option Nat))
  | [] => some (self, [])
  | op :: ops =>
      match Cpp.step self op with
      | none => none
      | some (v, out) =>
          match Cpp.runOps v ops with
          | none => none
          | some (v', outs) => some (v', out :: outs)

/-! ## Growth of the storage -/

/-- Number of calls of a sequence, run from `timer`, that take the branch
`count == capacity` of `ProTi_Start` (line 97) and so call `realloc`. -/
def reallocsIn (timer : ProTi) : List Op → Nat
  | [] => 0
  | op :: ops =>
      (match op with
        | Op.start _ _ => if timer.count = timer.capacity then 1 else 0
        | _ => 0)
      + (match step timer op with
        | Outcome.ok (t, _) => reallocsIn t ops
        | Outcome.undefined _ => 0)

/-- A sequence made of `start` calls only, one per allocator answer and clock
reading. -/
def starts (inputs : List (Option (Nat → Nat) × PlatformClock)) : List Op :=
  inputs.map (fun x => Op.start x.1 x.2)

/-- The smallest power of two that is at least `n`, and 0 for `n = 0`. -/
def ceilPow2 (n : Nat) : Nat := if n = 0 then 0 else 2 ^ Nat.clog 2 n

/-- The number `⌈log2 n⌉ + 1`, and 0 for `n = 0`. -/
def ceilLog2Succ (n : Nat) : Nat := if n = 0 then 0 else Nat.clog 2 n + 1

/-- Four starts in a row. -/
def fourInputs : List (Option (Nat → Nat) × PlatformClock) :=
  [(granted, PlatformClock.mach_absolute_time 10),
   (granted, PlatformClock.mach_absolute_time 20),
   (granted, PlatformClock.mach_absolute_time 30),
   (granted, PlatformClock.mach_absolute_time 40)]

/-- The recorder after `fourInputs`. -/
def fourRecorded : ProTi := { timestamps := some [10, 20, 30, 40], count := 4, capacity := 4 }

/-- Two starts for which the allocator would refuse a block. -/
def twoDenied : List (Option (Nat → Nat) × PlatformClock) :=
  [(none, PlatformClock.mach_absolute_time 50),
   (none, PlatformClock.mach_absolute_time 60)]

/-! ## Order of the recorded ticks -/

/-- The ticks the clock returned to all the `start` calls of a sequence, in call
order. -/
def startTicks : List Op → List Nat
  | [] => []
  | Op.start _ clk :: ops => GetRawTime clk :: startTicks ops
  | _ :: ops => startTicks ops

/-! ## Threads sharing one recorder

Each thread calls `ProTi_Start` once. The call is cut at the points where
another thread could run: the lock, the growth of the block (lines 97-100), the
store of the tick and the increment of `count` (both line 101), the unlock.
`pthread_mutex_lock` lets a thread pass only while the mutex is free; a thread
that finds it taken waits, which shows as a step that changes nothing. -/

/-- Where a thread stands in its call of `ProTi_Start`. -/
inductive Pc where
  | lock
  | grow
  | store
  | inc
  | unlock
  | done
deriving DecidableEq, Repr

/-- The recorder shared by the threads, its mutex, and where each thread stands. -/
structure Shared where
  timer : ProTi
  mutex : Bool
  pcs : List Pc
deriving DecidableEq, Repr

/-- Lines 97-100 of `ProTi_Start`: the block grows when it is full. -/
def startGrow (timer : ProTi) (answer : Option (Nat → Nat)) : ProTi :=
  if timer.count = timer.capacity then
    let capacity := if timer.capacity ≠ 0 then wrap64 (timer.capacity * 2) else 1
    { timer with
      capacity := capacity
      timestamps := realloc timer.timestamps (wrap64 (capacity * 8)) answer }
  else timer

/-- Line 101 of `ProTi_Start`, the store: `timestamps[count] = GetRawTime()`. -/
def startStore (timer : ProTi) (clk : PlatformClock) : Outcome ProTi :=
  match timer.timestamps with
  | none => Outcome.undefined timer
  | some block =>
      if timer.count < block.length then
        Outcome.ok { timer with timestamps := some (block.set timer.count (GetRawTime clk)) }
      else Outcome.undefined timer

/-- Line 101 of `ProTi_Start`, the increment: `count++`. -/
def startInc (timer : ProTi) : ProTi :=
  { timer with count := wrap64 (timer.count + 1) }

/-- The allocator answer and the clock reading of thread `i`. -/
def inputOf (inputs : List (Option (Nat → Nat) × PlatformClock)) (i : Nat) :
    Option (Nat → Nat) × PlatformClock :=
  inputs.getD i (none, PlatformClock.mach_absolute_time 0)

/-- The tick thread `i` reads from the clock. -/
def tickOf (inputs : List (Option (Nat → Nat) × PlatformClock)) (i : Nat) : Nat :=
  GetRawTime (inputOf inputs i).2

/-- Where thread `i` stands; an index that names no thread counts as done. -/
def pcAt (σ : Shared) (i : Nat) : Pc := σ.pcs.getD i Pc.done

/-- One step of thread `i`. -/
def threadStep (inputs : List (Option (Nat → Nat) × PlatformClock)) (σ : Shared) (i : Nat) :
    Outcome Shared :=
  match pcAt σ i with
  | Pc.lock =>
      if σ.mutex then Outcome.ok σ
      else Outcome.ok { σ with mutex := true, pcs := σ.pcs.set i Pc.grow }
  | Pc.grow =>
      Outcome.ok { σ with
        timer := startGrow σ.timer (inputOf inputs i).1
        pcs := σ.pcs.set i Pc.store }
  | Pc.store =>
      match startStore σ.timer (inputOf inputs i).2 with
      | Outcome.ok t => Outcome.ok { σ with timer := t, pcs := σ.pcs.set i Pc.inc }
      | Outcome.undefined f => Outcome.undefined f
  | Pc.inc =>
      Outcome.ok { σ with timer := startInc σ.timer, pcs := σ.pcs.set i Pc.unlock }
  | Pc.unlock => Outcome.ok { σ with mutex := false, pcs := σ.pcs.set i Pc.done }
  | Pc.done => Outcome.ok σ

/-- An interleaving: the threads step in the order the schedule names them. -/
def runSchedule (inputs : List (Option (Nat → Nat) × PlatformClock)) (σ : Shared) :
    List Nat → Outcome Shared
  | [] => Outcome.ok σ
  | i :: sched =>
      match threadStep inputs σ i with
      | Outcome.ok σ1 => runSchedule inputs σ1 sched
      | Outcome.undefined f => Outcome.undefined f

/-- The start of the threads: the recorder after `ProTi_Init`, the mutex free,
one thread per input, each before its lock. -/
def spawn (timer0 : ProTi) (inputs : List (Option (Nat → Nat) × PlatformClock)) : Shared :=
  { timer := ProTi_Init timer0, mutex := false, pcs := List.replicate inputs.length Pc.lock }

/-- Every thread has returned from `ProTi_Start`. -/
def allDone (σ : Shared) : Bool := σ.pcs.all (fun pc => decide (pc = Pc.done))

/-- Thread `i` can make a step that changes the state. -/
def enabled (σ : Shared) (i : Nat) : Bool :=
  match pcAt σ i with
  | Pc.lock => !σ.mutex
  | Pc.done => false
  | _ => true

/-- What the holder of the mutex has done so far, as a relation between the
recorder and the ticks of the threads that finished before it. -/
def holderPhase (inputs : List (Option (Nat → Nat) × PlatformClock)) (timer : ProTi)
    (before : List Nat) (h : Nat) : Pc → Prop
  | Pc.lock => False
  | Pc.grow => entries timer = before.map (tickOf inputs)
  | Pc.store => entries timer = before.map (tickOf inputs) ∧ timer.count < timer.capacity
  | Pc.inc =>
      entries timer = before.map (tickOf inputs) ∧ timer.count < timer.capacity ∧
      (storage timer).getD timer.count 0 = tickOf inputs h
  | Pc.unlock => entries timer = (before ++ [h]).map (tickOf inputs)
  | Pc.done => False

/-- The invariant of the interleavings: `order` lists the threads that have
passed the lock, in the order they passed it. -/
def SharedInv (inputs : List (Option (Nat → Nat) × PlatformClock)) (σ : Shared)
    (order : List Nat) : Prop :=
  σ.pcs.length = inputs.length ∧ order.Nodup ∧
  (∀ i, i ∈ order ↔ (i < inputs.length ∧ pcAt σ i ≠ Pc.lock)) ∧
  WF σ.timer ∧
  (σ.mutex = false →
    (∀ i ∈ order, pcAt σ i = Pc.done) ∧ entries σ.timer = order.map (tickOf inputs)) ∧
  (σ.mutex = true →
    ∃ before h, order = before ++ [h] ∧ (∀ i ∈ before, pcAt σ i = Pc.done) ∧
      holderPhase inputs σ.timer before h (pcAt σ h))

/-- Two threads: both blocks granted, ticks 100 and 200. -/
def twoThreads : List (Option (Nat → Nat) × PlatformClock) :=
  [(granted, PlatformClock.mach_absolute_time 100),
   (granted, PlatformClock.mach_absolute_time 200)]

/-- Thread 1 takes the lock first; thread 0 tries in between and has to wait. -/
def sampleSchedule : List Nat := [1, 0, 1, 0, 1, 1, 0, 1, 0, 0, 0, 0, 0]

/-! ## Machine arithmetic: facts -/

theorem sub64_lt (a b : Nat) : sub64 a b < 2 ^ 64 := by
  unfold sub64
  exact Nat.mod_lt _ (by norm_num)

theorem sub64_int (a b : Nat) : ((sub64 a b : Nat) : Int) = ((a : Int) - (b : Int)) % 2 ^ 64 := by
  unfold sub64
  have hb : b % 2 ^ 64 < 2 ^ 64 := Nat.mod_lt _ (by norm_num)
  have h1 : ((a + (2 ^ 64 - b % 2 ^ 64) : Nat) : Int) = (a : Int) - ((b % 2 ^ 64 : Nat) : Int) + 2 ^ 64 := by
    omega
  rw [Int.natCast_mod, h1]
  push_cast
  rw [Int.add_emod_self, Int.sub_emod, Int.emod_emod_of_dvd _ (dvd_refl _), ← Int.sub_emod]

theorem sub64_exact (a b : Nat) (hba : b ≤ a) (ha : a < 2 ^ 64) : sub64 a b = a - b := by
  unfold sub64
  have hb : b % 2 ^ 64 = b := Nat.mod_eq_of_lt (by omega)
  rw [hb]
  have : a + (2 ^ 64 - b) = (a - b) + 2 ^ 64 := by omega
  rw [this, Nat.add_mod_right]
  exact Nat.mod_eq_of_lt (by omega)

theorem castU64_lt (x : Int) : castU64 x < 2 ^ 64 := by
  unfold castU64
  have h1 : 0 ≤ x % 2 ^ 64 := Int.emod_nonneg _ (by norm_num)
  have h2 : x % 2 ^ 64 < 2 ^ 64 := Int.emod_lt_of_pos _ (by norm_num)
  omega

theorem GetRawTime_lt (clk : PlatformClock) : GetRawTime clk < 2 ^ 64 := by
  cases clk with
  | QueryPerformanceCounter q => exact castU64_lt q
  | mach_absolute_time v => exact Nat.mod_lt _ (by norm_num)
  | clock_gettime ts => exact Nat.mod_lt _ (by norm_num)
  | steady_clock c => exact castU64_lt c


/-! ## The recorder: one operation -/

theorem storage_of_some (t : ProTi) (block : List Nat) (h : t.timestamps = some block) :
    storage t = block := by
  simp [storage, h]

theorem timestamps_of_lt (t : ProTi) (i : Nat) (h : i < (storage t).length) :
    t.timestamps = some (storage t) := by
  unfold storage at h ⊢
  cases hts : t.timestamps with
  | none => simp [hts] at h
  | some block => simp

/-- Reading a cell of the block: both readers return the cell and the recorder
itself. -/
theorem read_cell (t : ProTi) (index : Nat) (h : index < (storage t).length)
    (clk : PlatformClock) :
    ProTi_ReturnTimestamp t index = Outcome.ok (t, (storage t).getD index 0) ∧
    ProTi_Stop t index clk
      = Outcome.ok (t, sub64 (GetRawTime clk) ((storage t).getD index 0)) := by
  have hts := timestamps_of_lt t index h
  have hget : (storage t)[index]? = some ((storage t)[index]) := List.getElem?_eq_getElem h
  unfold ProTi_ReturnTimestamp ProTi_Stop
  rw [hts]
  simp [hget]

/-- Reading outside the block is an undefined access. -/
theorem read_outside (t : ProTi) (index : Nat) (h : (storage t).length ≤ index)
    (clk : PlatformClock) :
    ProTi_ReturnTimestamp t index = Outcome.undefined t ∧
    ProTi_Stop t index clk = Outcome.undefined t := by
  unfold ProTi_ReturnTimestamp ProTi_Stop
  cases hts : t.timestamps with
  | none => exact ⟨rfl, rfl⟩
  | some block =>
      have hb : storage t = block := storage_of_some t block hts
      rw [hb] at h
      have hget : block[index]? = none := List.getElem?_eq_none h
      simp [hget]

theorem entries_getD (t : ProTi) (i : Nat) (h : i < t.count) :
    (entries t).getD i 0 = (storage t).getD i 0 := by
  unfold entries
  rw [List.getD_eq_getElem?_getD, List.getD_eq_getElem?_getD, List.getElem?_take_of_lt h]

theorem take_set_self (l : List Nat) (n x : Nat) : (l.set n x).take n = l.take n := by
  rw [List.set_take]
  exact List.set_eq_of_length_le (by simp)

/-- A `ProTi_Start` that needs no new block, or gets one, appends the tick. -/
theorem start_appends (t : ProTi) (answer : Option (Nat → Nat)) (clk : PlatformClock)
    (hwf : WF t) (hroom : t.count < t.capacity ∨ (answer.isSome ∧ t.capacity < 2 ^ 60)) :
    ∃ t', ProTi_Start t answer clk = Outcome.ok t' ∧ WF t' ∧
      t'.count = t.count + 1 ∧ t'.capacity = capacityAfterStart t ∧
      entries t' = entries t ++ [GetRawTime clk] := by
  obtain ⟨hcc, hcap, hlen⟩ := hwf
  by_cases hfull : t.count = t.capacity
  · -- the block is full: a new one is requested
    have hr : answer.isSome ∧ t.capacity < 2 ^ 60 := by
      rcases hroom with h | h
      · omega
      · exact h
    obtain ⟨junk, hj⟩ := Option.isSome_iff_exists.mp hr.1
    subst hj
    have hnew : (if t.capacity ≠ 0 then wrap64 (t.capacity * 2) else 1)
        = capacityAfterStart t := by
      unfold capacityAfterStart wrap64
      rw [if_pos hfull]
      by_cases h0 : t.capacity = 0
      · simp [h0]
      · rw [if_pos h0, if_neg h0]
        exact Nat.mod_eq_of_lt (by omega)
    have hnewlt : capacityAfterStart t < 2 ^ 61 := by
      unfold capacityAfterStart
      rw [if_pos hfull]
      split <;> omega
    have hgrow : t.capacity < capacityAfterStart t := by
      unfold capacityAfterStart
      rw [if_pos hfull]
      split <;> omega
    have hsize : wrap64 (capacityAfterStart t * 8) / 8 = capacityAfterStart t := by
      unfold wrap64
      rw [Nat.mod_eq_of_lt (by omega)]
      omega
    have hold : t.timestamps.getD [] = storage t := rfl
    have hblock : realloc t.timestamps (wrap64 (capacityAfterStart t * 8)) (some junk)
        = some (storage t ++ (List.range (capacityAfterStart t - t.capacity)).map
            (fun j => wrap64 (junk j))) := by
      unfold realloc
      simp only [hsize, hold, hlen]
      rw [List.take_of_length_le (by omega)]
    refine ⟨ProTi.mk (some ((storage t ++ (List.range (capacityAfterStart t - t.capacity)).map
            (fun j => wrap64 (junk j))).set t.count (GetRawTime clk)))
          (t.count + 1) (capacityAfterStart t), ?_, ?_, rfl, rfl, ?_⟩
    · unfold ProTi_Start
      simp only [hfull, if_true, hnew, hblock]
      have hlt : t.capacity < (storage t ++ (List.range (capacityAfterStart t - t.capacity)).map
            (fun j => wrap64 (junk j))).length := by
        simp only [List.length_append, List.length_map, List.length_range, hlen]
        omega
      rw [if_pos hlt]
      have hw : wrap64 (t.capacity + 1) = t.capacity + 1 := by
        unfold wrap64
        exact Nat.mod_eq_of_lt (by omega)
      rw [hw]
    · refine ⟨?_, hnewlt, ?_⟩
      · show t.count + 1 ≤ capacityAfterStart t
        omega
      · simp only [storage, Option.getD_some, List.length_set, List.length_append,
          List.length_map, List.length_range]
        have := hlen
        unfold storage at this
        omega
    · unfold entries
      simp only [storage, Option.getD_some]
      have hl : (t.timestamps.getD []).length = t.count := by
        have := hlen
        unfold storage at this
        omega
      have e1 : (t.timestamps.getD []).take (t.count + 1) = t.timestamps.getD [] :=
        List.take_of_length_le (by omega)
      have e2 : (t.timestamps.getD []).take t.count = t.timestamps.getD [] :=
        List.take_of_length_le (by omega)
      rw [List.set_append_right _ _ (by omega), List.take_append_eq_append_take, e1, e2, hl]
      congr 1
      obtain ⟨m, hm⟩ : ∃ m, capacityAfterStart t - t.capacity = m + 1 :=
        ⟨capacityAfterStart t - t.capacity - 1, by omega⟩
      rw [hm, List.range_succ_eq_map]
      simp
  · -- there is room in the block
    have hlt : t.count < t.capacity := by omega
    have hts := timestamps_of_lt t t.count (by omega)
    refine ⟨ProTi.mk (some ((storage t).set t.count (GetRawTime clk))) (t.count + 1) t.capacity,
      ?_, ?_, rfl, ?_, ?_⟩
    · unfold ProTi_Start
      simp only [hfull, if_false]
      rw [hts]
      simp only [storage_of_some t _ hts]
      rw [if_pos (by omega)]
      have hw : wrap64 (t.count + 1) = t.count + 1 := by
        unfold wrap64
        exact Nat.mod_eq_of_lt (by omega)
      rw [hw]
    · refine ⟨?_, hcap, ?_⟩
      · show t.count + 1 ≤ t.capacity
        omega
      · simp only [storage, Option.getD_some, List.length_set]
        exact hlen
    · unfold capacityAfterStart
      rw [if_neg hfull]
    · unfold entries
      simp only [storage, Option.getD_some]
      have hl : t.count < (t.timestamps.getD []).length := by
        have := hlen
        unfold storage at this
        omega
      rw [List.take_succ, take_set_self]
      congr 1
      simp [List.getElem?_set_self hl]


/-! ## The recorder: sequences of operations -/

theorem entries_length (t : ProTi) (hwf : WF t) : (entries t).length = t.count := by
  obtain ⟨hcc, _, hlen⟩ := hwf
  unfold entries
  rw [List.length_take, hlen]
  omega

theorem clear_wf (t : ProTi) (hwf : WF t) : WF (ProTi_ClearTimestamps t) := by
  obtain ⟨_, hcap, hlen⟩ := hwf
  exact ⟨Nat.zero_le _, hcap, hlen⟩

theorem clear_entries (t : ProTi) : entries (ProTi_ClearTimestamps t) = [] := by
  simp [entries, ProTi_ClearTimestamps]

/-- A sequence of operations on a well-formed recorder runs to the end when every
block request is granted, every index is below the count of its moment and the
count stays within `2 ^ 60`; the final count and entries are those of the
sequence. -/
theorem runOps_spec (ops : List Op) : ∀ (t : ProTi), WF t →
    allocsSucceed ops = true → indicesValid t.count ops = true →
    t.count + countStarts ops ≤ 2 ^ 60 →
    ∃ t' outs, runOps t ops = Outcome.ok (t', outs) ∧ WF t' ∧
      t'.count = startsSinceClear t.count ops ∧
      entries t' = ticksSinceClear (entries t) ops := by
  induction ops with
  | nil =>
      intro t hwf _ _ _
      exact ⟨t, [], rfl, hwf, rfl, rfl⟩
  | cons op ops ih =>
      intro t hwf halloc hidx hlen
      cases op with
      | start answer clk =>
          simp only [allocsSucceed, Bool.and_eq_true] at halloc
          simp only [indicesValid] at hidx
          simp only [countStarts] at hlen
          have hroom : t.count < t.capacity ∨ (answer.isSome ∧ t.capacity < 2 ^ 60) := by
            by_cases h : t.count < t.capacity
            · exact Or.inl h
            · have := hwf.1
              exact Or.inr ⟨halloc.1, by omega⟩
          obtain ⟨t1, hs, hwf1, hc1, _, he1⟩ := start_appends t answer clk hwf hroom
          obtain ⟨t', outs, hr, hwf', hc', he'⟩ :=
            ih t1 hwf1 halloc.2 (by rw [hc1]; exact hidx) (by rw [hc1]; omega)
          refine ⟨t', none :: outs, ?_, hwf', ?_, ?_⟩
          · simp only [runOps, step, hs, hr]
          · rw [hc', hc1]
            rfl
          · rw [he', he1]
            rfl
      | stop index clk =>
          simp only [allocsSucceed] at halloc
          simp only [indicesValid, Bool.and_eq_true, decide_eq_true_eq] at hidx
          simp only [countStarts] at hlen
          have hcell : index < (storage t).length := by
            have h1 := hwf.1
            have h2 := hwf.2.2
            omega
          obtain ⟨t', outs, hr, hwf', hc', he'⟩ := ih t hwf halloc hidx.2 hlen
          refine ⟨t', some (sub64 (GetRawTime clk) ((storage t).getD index 0)) :: outs,
            ?_, hwf', ?_, ?_⟩
          · simp only [runOps, step, (read_cell t index hcell clk).2, hr]
          · rw [hc']
            rfl
          · rw [he']
            rfl
      | returnTimestamp index =>
          simp only [allocsSucceed] at halloc
          simp only [indicesValid, Bool.and_eq_true, decide_eq_true_eq] at hidx
          simp only [countStarts] at hlen
          have hcell : index < (storage t).length := by
            have h1 := hwf.1
            have h2 := hwf.2.2
            omega
          obtain ⟨t', outs, hr, hwf', hc', he'⟩ := ih t hwf halloc hidx.2 hlen
          refine ⟨t', some ((storage t).getD index 0) :: outs, ?_, hwf', ?_, ?_⟩
          · simp only [runOps, step,
              (read_cell t index hcell (PlatformClock.mach_absolute_time 0)).1, hr]
          · rw [hc']
            rfl
          · rw [he']
            rfl
      | getTimestampCount =>
          simp only [allocsSucceed] at halloc
          simp only [indicesValid] at hidx
          simp only [countStarts] at hlen
          obtain ⟨t', outs, hr, hwf', hc', he'⟩ := ih t hwf halloc hidx hlen
          refine ⟨t', some t.count :: outs, ?_, hwf', ?_, ?_⟩
          · simp only [runOps, step, ProTi_GetTimestampCount, hr]
          · rw [hc']
            rfl
          · rw [he']
            rfl
      | clearTimestamps =>
          simp only [allocsSucceed] at halloc
          simp only [indicesValid] at hidx
          simp only [countStarts] at hlen
          obtain ⟨t', outs, hr, hwf', hc', he'⟩ :=
            ih (ProTi_ClearTimestamps t) (clear_wf t hwf) halloc hidx
              (by
                show 0 + countStarts ops ≤ 2 ^ 60
                omega)
          refine ⟨t', none :: outs, ?_, hwf', ?_, ?_⟩
          · simp only [runOps, step, hr]
          · rw [hc']
            rfl
          · rw [he', clear_entries]
            rfl

theorem init_wf (timer : ProTi) : WF (ProTi_Init timer) := by
  refine ⟨Nat.le_refl _, ?_, rfl⟩
  show 0 < 2 ^ 61
  norm_num


/-! ## Claims on the recorder -/

theorem sub64_sub64 (a b c : Nat) : sub64 (sub64 a c) (sub64 b c) = sub64 a b := by
  have h : ((sub64 (sub64 a c) (sub64 b c) : Nat) : Int) = ((sub64 a b : Nat) : Int) := by
    rw [sub64_int, sub64_int, sub64_int, sub64_int, ← Int.sub_emod]
    congr 1
    ring
  exact_mod_cast h

/-- C1: after any sequence of recorder operations run from `ProTi_Init` (every
block request granted, every index below the count of its moment, at most
`2 ^ 60` starts so that the byte size of the block fits `size_t`), the run
completes and `ProTi_GetTimestampCount` returns the number of `ProTi_Start`
calls made since `ProTi_Init` or the last `ProTi_ClearTimestamps`. -/
theorem C1_count_is_starts_since_clear (timer0 : ProTi) (ops : List Op)
    (halloc : allocsSucceed ops = true) (hidx : indicesValid 0 ops = true)
    (hlen : countStarts ops ≤ 2 ^ 60) :
    ∃ t outs, runOps (ProTi_Init timer0) ops = Outcome.ok (t, outs) ∧
      ProTi_GetTimestampCount t = (t, startsSinceClear 0 ops) := by
  obtain ⟨t, outs, hr, _, hc, _⟩ :=
    runOps_spec ops (ProTi_Init timer0) (init_wf timer0) halloc hidx
      (by
        show 0 + countStarts ops ≤ 2 ^ 60
        omega)
  refine ⟨t, outs, hr, ?_⟩
  unfold ProTi_GetTimestampCount
  rw [hc]
  rfl

theorem C1_count_is_starts_since_clear_witness :
    ∃ t outs, runOps (ProTi_Init blankTimer) sampleOps = Outcome.ok (t, outs) ∧
      ProTi_GetTimestampCount t = (t, 1) :=
  C1_count_is_starts_since_clear blankTimer sampleOps (by decide) (by decide) (by decide)

/-- C2: on a well-formed recorder and for an index below the count,
`ProTi_Stop` returns the clock reading minus the stored tick modulo `2 ^ 64`,
which is the plain difference when the reading is not below the stored tick;
after starts at ticks 1000 and 1050, stops at tick 1200 return 200 for index 0
and 150 for index 1. -/
theorem C2_stop_returns_elapsed (t : ProTi) (index : Nat) (clk : PlatformClock)
    (hwf : WF t) (hidx : index < t.count) :
    (∃ ts e, ProTi_ReturnTimestamp t index = Outcome.ok (t, ts) ∧
      ProTi_Stop t index clk = Outcome.ok (t, e) ∧
      (e : Int) = ((GetRawTime clk : Int) - (ts : Int)) % 2 ^ 64 ∧
      (ts ≤ GetRawTime clk → e = GetRawTime clk - ts)) ∧
    (∀ (timer0 : ProTi) (junk1 junk2 : Nat → Nat) (c1 c2 c3 : PlatformClock),
      GetRawTime c1 = 1000 → GetRawTime c2 = 1050 → GetRawTime c3 = 1200 →
      ∃ t1 t2, ProTi_Start (ProTi_Init timer0) (some junk1) c1 = Outcome.ok t1 ∧
        ProTi_Start t1 (some junk2) c2 = Outcome.ok t2 ∧
        ProTi_Stop t2 0 c3 = Outcome.ok (t2, 200) ∧
        ProTi_Stop t2 1 c3 = Outcome.ok (t2, 150)) := by
  constructor
  · have hcell : index < (storage t).length := by
      have h1 := hwf.1
      have h2 := hwf.2.2
      omega
    refine ⟨(storage t).getD index 0, sub64 (GetRawTime clk) ((storage t).getD index 0),
      (read_cell t index hcell clk).1, (read_cell t index hcell clk).2, sub64_int _ _, ?_⟩
    intro hle
    exact sub64_exact _ _ hle (GetRawTime_lt clk)
  · intro timer0 junk1 junk2 c1 c2 c3 h1 h2 h3
    refine ⟨ProTi.mk (some [1000]) 1 1, ProTi.mk (some [1000, 1050]) 2 2, ?_, ?_, ?_, ?_⟩
    · simp [ProTi_Start, ProTi_Init, realloc, wrap64, h1, List.range_succ]
    · simp [ProTi_Start, realloc, wrap64, h2, List.range_succ]
    · simp [ProTi_Stop, h3, sub64]
    · simp [ProTi_Stop, h3, sub64]

theorem C2_stop_returns_elapsed_witness :
    (∃ ts e, ProTi_ReturnTimestamp twoStarts 1 = Outcome.ok (twoStarts, ts) ∧
      ProTi_Stop twoStarts 1 (PlatformClock.mach_absolute_time 1200)
        = Outcome.ok (twoStarts, e) ∧
      (e : Int) = ((GetRawTime (PlatformClock.mach_absolute_time 1200) : Int) - (ts : Int))
        % 2 ^ 64 ∧
      (ts ≤ GetRawTime (PlatformClock.mach_absolute_time 1200) →
        e = GetRawTime (PlatformClock.mach_absolute_time 1200) - ts)) ∧
    (∀ (timer0 : ProTi) (junk1 junk2 : Nat → Nat) (c1 c2 c3 : PlatformClock),
      GetRawTime c1 = 1000 → GetRawTime c2 = 1050 → GetRawTime c3 = 1200 →
      ∃ t1 t2, ProTi_Start (ProTi_Init timer0) (some junk1) c1 = Outcome.ok t1 ∧
        ProTi_Start t1 (some junk2) c2 = Outcome.ok t2 ∧
        ProTi_Stop t2 0 c3 = Outcome.ok (t2, 200) ∧
        ProTi_Stop t2 1 c3 = Outcome.ok (t2, 150)) :=
  C2_stop_returns_elapsed twoStarts 1 (PlatformClock.mach_absolute_time 1200)
    (by decide) (by decide)

/-- C3: after any sequence of recorder operations run from `ProTi_Init` (same
assumptions as C1), `ProTi_ReturnTimestamp` at every index below the count
returns the tick the clock gave to the start call of that position since
`ProTi_Init` or the last clear, whatever the number of reallocations. -/
theorem C3_returnTimestamp_is_ith_start (timer0 : ProTi) (ops : List Op)
    (halloc : allocsSucceed ops = true) (hidx : indicesValid 0 ops = true)
    (hlen : countStarts ops ≤ 2 ^ 60) :
    ∃ t outs, runOps (ProTi_Init timer0) ops = Outcome.ok (t, outs) ∧
      t.count = (ticksSinceClear [] ops).length ∧
      ∀ (i : Nat) (h : i < (ticksSinceClear [] ops).length),
        ProTi_ReturnTimestamp t i = Outcome.ok (t, (ticksSinceClear [] ops)[i]) := by
  obtain ⟨t, outs, hr, hwf, _, he⟩ :=
    runOps_spec ops (ProTi_Init timer0) (init_wf timer0) halloc hidx
      (by
        show 0 + countStarts ops ≤ 2 ^ 60
        omega)
  have he' : entries t = ticksSinceClear [] ops := by
    rw [he]
    rfl
  have hcount : t.count = (ticksSinceClear [] ops).length := by
    rw [← he', entries_length t hwf]
  refine ⟨t, outs, hr, hcount, ?_⟩
  intro i h
  have hi : i < t.count := by omega
  have hcell : i < (storage t).length := by
    have h1 := hwf.1
    have h2 := hwf.2.2
    omega
  rw [(read_cell t i hcell (PlatformClock.mach_absolute_time 0)).1, ← entries_getD t i hi]
  have : (entries t).getD i 0 = (ticksSinceClear [] ops)[i] := by
    rw [he', List.getD_eq_getElem?_getD, List.getElem?_eq_getElem h]
    rfl
  rw [this]

theorem C3_returnTimestamp_is_ith_start_witness :
    ∃ t outs, runOps (ProTi_Init blankTimer) threeStarts = Outcome.ok (t, outs) ∧
      t.count = (ticksSinceClear [] threeStarts).length ∧
      ∀ (i : Nat) (h : i < (ticksSinceClear [] threeStarts).length),
        ProTi_ReturnTimestamp t i = Outcome.ok (t, (ticksSinceClear [] threeStarts)[i]) :=
  C3_returnTimestamp_is_ith_start blankTimer threeStarts (by decide) (by decide) (by decide)

/-- C4: `ProTi_Stop`, `ProTi_ReturnTimestamp` and `ProTi_GetTimestampCount`
leave the recorder as it was (for a well-formed recorder and an index below the
count), so two stops on one index differ by the difference of their clock
readings modulo `2 ^ 64`. -/
theorem C4_readers_do_not_mutate (t : ProTi) (index : Nat) (clk1 clk2 : PlatformClock)
    (hwf : WF t) (hidx : index < t.count) :
    ∃ t1 e1 t2 e2 t3 ts,
      ProTi_Stop t index clk1 = Outcome.ok (t1, e1) ∧ t1 = t ∧
      ProTi_Stop t1 index clk2 = Outcome.ok (t2, e2) ∧ t2 = t ∧
      sub64 e2 e1 = sub64 (GetRawTime clk2) (GetRawTime clk1) ∧
      ((sub64 e2 e1 : Nat) : Int)
        = ((GetRawTime clk2 : Int) - (GetRawTime clk1 : Int)) % 2 ^ 64 ∧
      ProTi_ReturnTimestamp t index = Outcome.ok (t3, ts) ∧ t3 = t ∧
      (ProTi_GetTimestampCount t).1 = t := by
  have hcell : index < (storage t).length := by
    have h1 := hwf.1
    have h2 := hwf.2.2
    omega
  refine ⟨t, sub64 (GetRawTime clk1) ((storage t).getD index 0),
    t, sub64 (GetRawTime clk2) ((storage t).getD index 0), t, (storage t).getD index 0,
    (read_cell t index hcell clk1).2, rfl, (read_cell t index hcell clk2).2, rfl,
    sub64_sub64 _ _ _, ?_, (read_cell t index hcell clk1).1, rfl, rfl⟩
  rw [sub64_sub64, sub64_int]

theorem C4_readers_do_not_mutate_witness :
    ∃ t1 e1 t2 e2 t3 ts,
      ProTi_Stop twoStarts 0 (PlatformClock.mach_absolute_time 1200)
        = Outcome.ok (t1, e1) ∧ t1 = twoStarts ∧
      ProTi_Stop t1 0 (PlatformClock.mach_absolute_time 1300)
        = Outcome.ok (t2, e2) ∧ t2 = twoStarts ∧
      sub64 e2 e1 = sub64 (GetRawTime (PlatformClock.mach_absolute_time 1300))
        (GetRawTime (PlatformClock.mach_absolute_time 1200)) ∧
      ((sub64 e2 e1 : Nat) : Int)
        = ((GetRawTime (PlatformClock.mach_absolute_time 1300) : Int)
            - (GetRawTime (PlatformClock.mach_absolute_time 1200) : Int)) % 2 ^ 64 ∧
      ProTi_ReturnTimestamp twoStarts 0 = Outcome.ok (t3, ts) ∧ t3 = twoStarts ∧
      (ProTi_GetTimestampCount twoStarts).1 = twoStarts :=
  C4_readers_do_not_mutate twoStarts 0 (PlatformClock.mach_absolute_time 1200)
    (PlatformClock.mach_absolute_time 1300) (by decide) (by decide)

/-- C5: `ProTi_ClearTimestamps` is idempotent, and on a recorder whose count is
already 0 it changes nothing. -/
theorem C5_clear_idempotent (t : ProTi) :
    ProTi_ClearTimestamps (ProTi_ClearTimestamps t) = ProTi_ClearTimestamps t ∧
    (ProTi_GetTimestampCount (ProTi_ClearTimestamps t)).2 = 0 ∧
    (t.count = 0 → ProTi_ClearTimestamps t = t ∧
      (ProTi_GetTimestampCount (ProTi_ClearTimestamps t)).2 = 0) := by
  refine ⟨rfl, rfl, ?_⟩
  intro h
  refine ⟨?_, rfl⟩
  cases t with
  | mk ts c cap =>
      simp only at h
      subst h
      rfl

theorem C5_clear_idempotent_witness :
    ProTi_ClearTimestamps (ProTi_ClearTimestamps clearedOnce) = ProTi_ClearTimestamps clearedOnce ∧
    (ProTi_GetTimestampCount (ProTi_ClearTimestamps clearedOnce)).2 = 0 ∧
    (ProTi_ClearTimestamps clearedOnce = clearedOnce ∧
      (ProTi_GetTimestampCount (ProTi_ClearTimestamps clearedOnce)).2 = 0) :=
  ⟨(C5_clear_idempotent clearedOnce).1, (C5_clear_idempotent clearedOnce).2.1,
    (C5_clear_idempotent clearedOnce).2.2 (by decide)⟩


/-- C6 (counterexample): after a start at tick 1000 and a clear the count is 0,
yet `ProTi_ReturnTimestamp` at index 0 returns the stale tick 1000 and
`ProTi_Stop` at index 0, clock 1200, returns 200: an index at or above the count
is not rejected. -/
theorem C6_counterexample_stale_read :
    (∃ t, ProTi_Start (ProTi_Init blankTimer) granted (PlatformClock.mach_absolute_time 1000)
        = Outcome.ok t ∧
      (ProTi_ClearTimestamps t).count = 0 ∧
      ProTi_ReturnTimestamp (ProTi_ClearTimestamps t) 0
        = Outcome.ok (ProTi_ClearTimestamps t, 1000) ∧
      ProTi_Stop (ProTi_ClearTimestamps t) 0 (PlatformClock.mach_absolute_time 1200)
        = Outcome.ok (ProTi_ClearTimestamps t, 200)) ∧
    ¬ (∀ (t : ProTi) (index : Nat) (clk : PlatformClock), t.count ≤ index →
        (∀ r, ProTi_ReturnTimestamp t index ≠ Outcome.ok r) ∧
        (∀ r, ProTi_Stop t index clk ≠ Outcome.ok r)) := by
  constructor
  · exact ⟨ProTi.mk (some [1000]) 1 1, by decide, by decide, by decide, by decide⟩
  · intro h
    exact (h clearedOnce 0 (PlatformClock.mach_absolute_time 1200) (by decide)).1
      (clearedOnce, 1000) (by decide)

/-- C6 (amended): the index is not compared with the count. On a well-formed
recorder every index below the capacity, also one at or above the count, makes
`ProTi_ReturnTimestamp` return the cell of the block at that index and
`ProTi_Stop` the clock reading minus that cell modulo `2 ^ 64`; an index at or
above the capacity is an access outside the block, with no error value. -/
theorem C6_index_unchecked (t : ProTi) (index : Nat) (clk : PlatformClock) (hwf : WF t) :
    (index < t.capacity →
      ProTi_ReturnTimestamp t index = Outcome.ok (t, (storage t).getD index 0) ∧
      ProTi_Stop t index clk
        = Outcome.ok (t, sub64 (GetRawTime clk) ((storage t).getD index 0))) ∧
    (t.capacity ≤ index →
      ProTi_ReturnTimestamp t index = Outcome.undefined t ∧
      ProTi_Stop t index clk = Outcome.undefined t) := by
  have hlen := hwf.2.2
  constructor
  · intro h
    exact read_cell t index (by omega) clk
  · intro h
    exact read_outside t index (by omega) clk

theorem C6_index_unchecked_witness :
    (ProTi_ReturnTimestamp clearedOnce 0 = Outcome.ok (clearedOnce, 1000) ∧
      ProTi_Stop clearedOnce 0 (PlatformClock.mach_absolute_time 1200)
        = Outcome.ok (clearedOnce, 200)) ∧
    (ProTi_ReturnTimestamp clearedOnce 1 = Outcome.undefined clearedOnce ∧
      ProTi_Stop clearedOnce 1 (PlatformClock.mach_absolute_time 1200)
        = Outcome.undefined clearedOnce) :=
  ⟨(C6_index_unchecked clearedOnce 0 (PlatformClock.mach_absolute_time 1200) (by decide)).1
      (by decide),
    (C6_index_unchecked clearedOnce 1 (PlatformClock.mach_absolute_time 1200) (by decide)).2
      (by decide)⟩

/-- C7 (counterexample): on the full recorder left by one start, a second start
whose `realloc` returns `NULL` reaches its store with the capacity already
doubled to 2 and `timestamps` overwritten by `NULL`; the store through `NULL`
is undefined, no failure is reported and the state is not the one before the
call. -/
theorem C7_counterexample_failed_realloc :
    (∃ t1, ProTi_Start (ProTi_Init blankTimer) granted (PlatformClock.mach_absolute_time 5)
        = Outcome.ok t1 ∧
      t1 = ProTi.mk (some [5]) 1 1 ∧
      ProTi_Start t1 none (PlatformClock.mach_absolute_time 9)
        = Outcome.undefined (ProTi.mk none 1 2) ∧
      ProTi.mk none 1 2 ≠ t1) ∧
    ¬ (∀ (t : ProTi) (clk : PlatformClock), WF t → t.count = t.capacity →
        ∃ f, ProTi_Start t none clk = Outcome.undefined f ∧ f = t) := by
  constructor
  · exact ⟨ProTi.mk (some [5]) 1 1, by decide, rfl, by decide, by decide⟩
  · intro h
    obtain ⟨f, hf, hft⟩ := h (ProTi.mk (some [5]) 1 1) (PlatformClock.mach_absolute_time 9)
      (by decide) rfl
    have h2 : ProTi_Start (ProTi.mk (some [5]) 1 1) none (PlatformClock.mach_absolute_time 9)
        = Outcome.undefined (ProTi.mk none 1 2) := by decide
    rw [h2] at hf
    injection hf with hf'
    rw [← hf'] at hft
    exact absurd hft (by decide)

/-- C7 (amended): on a well-formed recorder, when there is room in the block, or
when the block is full, `realloc` grants the new one and the doubled byte size
fits `size_t`, `ProTi_Start` returns with exactly one tick appended: the count
grows by one, the earlier entries are unchanged, the new last entry is the clock
reading, and the capacity is unchanged (room), 1 (from 0) or doubled. -/
theorem C7_start_appends_one_tick (t : ProTi) (answer : Option (Nat → Nat))
    (clk : PlatformClock) (hwf : WF t)
    (hroom : t.count < t.capacity ∨ (answer.isSome = true ∧ t.capacity < 2 ^ 60)) :
    ∃ t', ProTi_Start t answer clk = Outcome.ok t' ∧ WF t' ∧
      t'.count = t.count + 1 ∧ t'.capacity = capacityAfterStart t ∧
      entries t' = entries t ++ [GetRawTime clk] ∧
      (∀ i, i < t.count → ProTi_ReturnTimestamp t' i = Outcome.ok (t', (entries t).getD i 0)) ∧
      ProTi_ReturnTimestamp t' t.count = Outcome.ok (t', GetRawTime clk) := by
  obtain ⟨t', hs, hwf', hc, hcap, he⟩ := start_appends t answer clk hwf hroom
  have hlen : (entries t).length = t.count := entries_length t hwf
  have hread : ∀ i, i < t'.count →
      ProTi_ReturnTimestamp t' i = Outcome.ok (t', (entries t').getD i 0) := by
    intro i hi
    have hcell : i < (storage t').length := by
      have h1 := hwf'.1
      have h2 := hwf'.2.2
      omega
    rw [(read_cell t' i hcell clk).1, entries_getD t' i hi]
  refine ⟨t', hs, hwf', hc, hcap, he, ?_, ?_⟩
  · intro i hi
    rw [hread i (by omega), he, List.getD_eq_getElem?_getD, List.getD_eq_getElem?_getD,
      List.getElem?_append_left (by omega)]
  · rw [hread t.count (by omega), he, List.getD_eq_getElem?_getD,
      List.getElem?_append_right (by omega), hlen]
    simp

theorem C7_start_appends_one_tick_witness :
    ∃ t', ProTi_Start twoStarts granted (PlatformClock.mach_absolute_time 1100)
        = Outcome.ok t' ∧ WF t' ∧
      t'.count = twoStarts.count + 1 ∧ t'.capacity = capacityAfterStart twoStarts ∧
      entries t' = entries twoStarts ++ [GetRawTime (PlatformClock.mach_absolute_time 1100)] ∧
      (∀ i, i < twoStarts.count →
        ProTi_ReturnTimestamp t' i = Outcome.ok (t', (entries twoStarts).getD i 0)) ∧
      ProTi_ReturnTimestamp t' twoStarts.count
        = Outcome.ok (t', GetRawTime (PlatformClock.mach_absolute_time 1100)) :=
  C7_start_appends_one_tick twoStarts granted (PlatformClock.mach_absolute_time 1100)
    (by decide) (Or.inr ⟨by decide, by decide⟩)


/-! ## Claims on the clock layer -/

theorem call_frame (s s' : Program) (c : Call) (out : Option Nat)
    (h : call s c = Outcome.ok (s', out)) :
    s'.PROGRAM_START = s.PROGRAM_START ∧ s'.mode = s.mode := by
  cases c with
  | returnRawTime clk =>
      simp only [call, Outcome.ok.injEq, Prod.mk.injEq] at h
      rw [← h.1]
      exact ⟨rfl, rfl⟩
  | returnElapsedTime clk =>
      simp only [call, Outcome.ok.injEq, Prod.mk.injEq] at h
      rw [← h.1]
      exact ⟨rfl, rfl⟩
  | returnMode =>
      simp only [call, Outcome.ok.injEq, Prod.mk.injEq] at h
      rw [← h.1]
      exact ⟨rfl, rfl⟩
  | recorder op =>
      simp only [call] at h
      cases hst : step s.timer op with
      | undefined f =>
          rw [hst] at h
          cases h
      | ok r =>
          obtain ⟨t, o⟩ := r
          rw [hst] at h
          simp only [Outcome.ok.injEq, Prod.mk.injEq] at h
          rw [← h.1]
          exact ⟨rfl, rfl⟩

/-- No sequence of interface calls writes `PROGRAM_START` or `mode`. -/
theorem exec_frame (calls : List Call) : ∀ (s s' : Program) (outs : List (Option Nat)),
    exec s calls = Outcome.ok (s', outs) →
    s'.PROGRAM_START = s.PROGRAM_START ∧ s'.mode = s.mode := by
  induction calls with
  | nil =>
      intro s s' outs h
      simp only [exec, Outcome.ok.injEq, Prod.mk.injEq] at h
      rw [← h.1]
      exact ⟨rfl, rfl⟩
  | cons c cs ih =>
      intro s s' outs h
      simp only [exec] at h
      cases hc : call s c with
      | undefined f =>
          rw [hc] at h
          cases h
      | ok r =>
          obtain ⟨s1, o⟩ := r
          rw [hc] at h
          simp only at h
          cases he : exec s1 cs with
          | undefined f =>
              rw [he] at h
              cases h
          | ok r2 =>
              obtain ⟨s2, os⟩ := r2
              rw [he] at h
              simp only [Outcome.ok.injEq, Prod.mk.injEq] at h
              have h1 := call_frame s s1 c o hc
              have h2 := ih s1 s2 os he
              rw [← h.1]
              exact ⟨h2.1.trans h1.1, h2.2.trans h1.2⟩

/-- C8: `ProTi_ReturnElapsedTime` returns the current tick minus `PROGRAM_START`
modulo `2 ^ 64`, which is the plain difference whenever the current tick is not
below `PROGRAM_START`; no sequence of interface calls changes `PROGRAM_START`. -/
theorem C8_elapsed_since_start (PROGRAM_START : Nat) (clk : PlatformClock) :
    ((ProTi_ReturnElapsedTime PROGRAM_START clk : Nat) : Int)
      = ((GetRawTime clk : Int) - (PROGRAM_START : Int)) % 2 ^ 64 ∧
    (PROGRAM_START ≤ GetRawTime clk →
      ProTi_ReturnElapsedTime PROGRAM_START clk = GetRawTime clk - PROGRAM_START) ∧
    (∀ (s s' : Program) (calls : List Call) (outs : List (Option Nat)),
      exec s calls = Outcome.ok (s', outs) → s'.PROGRAM_START = s.PROGRAM_START) ∧
    (∀ (s : Program),
      call s (Call.returnElapsedTime clk)
        = Outcome.ok (s, some (sub64 (GetRawTime clk) s.PROGRAM_START))) := by
  refine ⟨sub64_int _ _, ?_, ?_, ?_⟩
  · intro h
    exact sub64_exact _ _ h (GetRawTime_lt clk)
  · intro s s' calls outs h
    exact (exec_frame calls s s' outs h).1
  · intro s
    rfl

theorem C8_elapsed_since_start_witness :
    ProTi_ReturnElapsedTime 1000 (PlatformClock.mach_absolute_time 1200) = 1200 - 1000 ∧
    startProgram windowsBuild (PlatformClock.QueryPerformanceCounter 1000) blankTimer
      = some startedOnWindows ∧
    exec startedOnWindows sampleCalls
      = Outcome.ok (afterSampleCalls, [some 50, none, some 1, some 0, none, some 200]) ∧
    afterSampleCalls.PROGRAM_START = startedOnWindows.PROGRAM_START :=
  ⟨(C8_elapsed_since_start 1000 (PlatformClock.mach_absolute_time 1200)).2.1 (by decide),
    by decide, by decide,
    (C8_elapsed_since_start 1000 (PlatformClock.mach_absolute_time 1200)).2.2.1 _ _
      sampleCalls [some 50, none, some 1, some 0, none, some 200] (by decide)⟩

/-- The conditional block keeps exactly one backend: Windows before Apple/Mach
before unix/linux/BSD before the chrono fallback. -/
theorem selectBackend_priority (p : Platform) :
    (selectBackend p = Backend.windows ↔ (p._WIN32 = true ∨ p._WIN64 = true)) ∧
    (selectBackend p = Backend.mach ↔
      ¬ (p._WIN32 = true ∨ p._WIN64 = true) ∧ (p.__APPLE__ = true ∨ p.__MACH__ = true)) ∧
    (selectBackend p = Backend.posix ↔
      ¬ (p._WIN32 = true ∨ p._WIN64 = true) ∧ ¬ (p.__APPLE__ = true ∨ p.__MACH__ = true) ∧
      (p.__unix__ = true ∨ p.__unix = true ∨ p.__linux__ = true ∨ p.BSD = true ∨
        p.__FreeBSD__ = true ∨ p.__OpenBSD__ = true ∨ p.__NetBSD__ = true)) ∧
    (selectBackend p = Backend.chrono ↔
      ¬ (p._WIN32 = true ∨ p._WIN64 = true) ∧ ¬ (p.__APPLE__ = true ∨ p.__MACH__ = true) ∧
      ¬ (p.__unix__ = true ∨ p.__unix = true ∨ p.__linux__ = true ∨ p.BSD = true ∨
        p.__FreeBSD__ = true ∨ p.__OpenBSD__ = true ∨ p.__NetBSD__ = true)) ∧
    (∃! b, selectBackend p = b) := by
  refine ⟨?_, ?_, ?_, ?_, ⟨selectBackend p, rfl, fun b hb => hb.symm⟩⟩
  · unfold selectBackend
    simp only [Bool.or_eq_true]
    split_ifs <;> simp only [reduceCtorEq, false_iff, true_iff] <;> tauto
  · unfold selectBackend
    simp only [Bool.or_eq_true]
    split_ifs <;> simp only [reduceCtorEq, false_iff, true_iff] <;> tauto
  · unfold selectBackend
    simp only [Bool.or_eq_true]
    split_ifs <;> simp only [reduceCtorEq, false_iff, true_iff] <;> tauto
  · unfold selectBackend
    simp only [Bool.or_eq_true]
    split_ifs <;> simp only [reduceCtorEq, false_iff, true_iff] <;> tauto

/-- The variable `mode` never holds anything but its initialiser 0, and it
holds that only on the Windows backend, whose group has no file-scope line. -/
theorem mode_eq_some_iff (p : Platform) (m : Nat) :
    mode p = some m ↔ (selectBackend p = Backend.windows ∧ m = 0) := by
  unfold mode wellFormedGroup
  cases hb : selectBackend p <;> simp [fileScopeModeLine, eq_comm]

/-- C9 (code bug): on a Linux build the kept group is the POSIX one, whose
documented mode is 2, but its line `mode = 2;` stands at file scope and is not a
statement that runs: the group is ill-formed, there is no program, and
`ProTi_ReturnMode` never returns 2. The same holds for the Apple/Mach group
(documented 1) and the chrono fallback (documented 3). Only the Windows build
exists as a program; there `mode` is 0 and `ProTi_ReturnMode` returns 0 after
any calls. On no platform does `mode` hold 1, 2 or 3. -/
theorem C9_mode_lines_outside_any_function :
    (selectBackend linuxBuild = Backend.posix ∧ documentedMode Backend.posix = 2 ∧
      fileScopeModeLine Backend.posix = some 2 ∧ wellFormedGroup linuxBuild = false ∧
      mode linuxBuild = none ∧
      ∀ clk timer, startProgram linuxBuild clk timer = none) ∧
    (selectBackend macBuild = Backend.mach ∧ documentedMode Backend.mach = 1 ∧
      mode macBuild = none ∧ ∀ clk timer, startProgram macBuild clk timer = none) ∧
    (selectBackend otherBuild = Backend.chrono ∧ documentedMode Backend.chrono = 3 ∧
      mode otherBuild = none ∧ ∀ clk timer, startProgram otherBuild clk timer = none) ∧
    (selectBackend windowsBuild = Backend.windows ∧ mode windowsBuild = some 0 ∧
      startProgram windowsBuild (PlatformClock.QueryPerformanceCounter 1000) blankTimer
        = some startedOnWindows ∧
      exec startedOnWindows sampleCalls
        = Outcome.ok (afterSampleCalls, [some 50, none, some 1, some 0, none, some 200]) ∧
      call afterSampleCalls Call.returnMode = Outcome.ok (afterSampleCalls, some 0)) ∧
    (∀ p m, mode p = some m → m = 0) ∧
    (∀ p, selectBackend p ≠ Backend.windows →
      mode p ≠ some (documentedMode (selectBackend p))) := by
  refine ⟨⟨by decide, rfl, rfl, by decide, by decide, ?_⟩,
    ⟨by decide, rfl, by decide, ?_⟩, ⟨by decide, rfl, by decide, ?_⟩,
    ⟨by decide, by decide, by decide, by decide, by decide⟩, ?_, ?_⟩
  · intro clk timer
    rfl
  · intro clk timer
    rfl
  · intro clk timer
    rfl
  · intro p m h
    exact ((mode_eq_some_iff p m).mp h).2
  · intro p hne h
    exact hne ((mode_eq_some_iff p _).mp h).1

/-- The POSIX conversion is exact on readings whose nanosecond value is a
`uint64_t`. -/
theorem posix_tick_exact (ts : timespec) (hn : 0 ≤ ts.tv_nsec ∧ ts.tv_nsec < 1000000000)
    (hr : 0 ≤ ts.tv_sec * 1000000000 + ts.tv_nsec ∧
      ts.tv_sec * 1000000000 + ts.tv_nsec < 2 ^ 64) :
    ((GetRawTime (PlatformClock.clock_gettime ts) : Nat) : Int)
      = ts.tv_sec * 1000000000 + ts.tv_nsec := by
  obtain ⟨sec, nsec⟩ := ts
  simp only at hn hr ⊢
  have hsec : 0 ≤ sec := by omega
  have hs1 : sec < 2 ^ 64 := by omega
  have hn1 : nsec < 2 ^ 64 := by omega
  have c1 : ((castU64 sec : Nat) : Int) = sec := by
    unfold castU64
    rw [Int.emod_eq_of_lt hsec hs1, Int.toNat_of_nonneg hsec]
  have c2 : ((castU64 nsec : Nat) : Int) = nsec := by
    unfold castU64
    rw [Int.emod_eq_of_lt hn.1 hn1, Int.toNat_of_nonneg hn.1]
  have hnn : (0 : Int) ≤ (castU64 sec : Nat) := Int.ofNat_nonneg _
  simp only [GetRawTime, wrap64]
  push_cast
  rw [c1, c2]
  have hmul : sec * 1000000000 % 18446744073709551616 = sec * 1000000000 :=
    Int.emod_eq_of_lt (by omega) (by omega)
  rw [hmul]
  exact Int.emod_eq_of_lt hr.1 (by omega)

/-- C10: in the POSIX backend two readings that are normalised, whose nanosecond
value is a `uint64_t`, and that are taken in non-decreasing lexicographic order
convert to non-decreasing ticks, increasing when the readings differ; the other
backends return their non-negative in-range counter unchanged, hence in the same
order. -/
theorem C10_ticks_monotone (ts1 ts2 : timespec)
    (hn1 : 0 ≤ ts1.tv_nsec ∧ ts1.tv_nsec < 1000000000)
    (hn2 : 0 ≤ ts2.tv_nsec ∧ ts2.tv_nsec < 1000000000)
    (hr1 : 0 ≤ ts1.tv_sec * 1000000000 + ts1.tv_nsec ∧
      ts1.tv_sec * 1000000000 + ts1.tv_nsec < 2 ^ 64)
    (hr2 : 0 ≤ ts2.tv_sec * 1000000000 + ts2.tv_nsec ∧
      ts2.tv_sec * 1000000000 + ts2.tv_nsec < 2 ^ 64)
    (hlex : ts1.tv_sec < ts2.tv_sec ∨ (ts1.tv_sec = ts2.tv_sec ∧ ts1.tv_nsec ≤ ts2.tv_nsec)) :
    GetRawTime (PlatformClock.clock_gettime ts1) ≤ GetRawTime (PlatformClock.clock_gettime ts2) ∧
    (ts1 ≠ ts2 →
      GetRawTime (PlatformClock.clock_gettime ts1)
        < GetRawTime (PlatformClock.clock_gettime ts2)) ∧
    (∀ q1 q2 : Int, 0 ≤ q1 → q1 ≤ q2 → q2 < 2 ^ 64 →
      GetRawTime (PlatformClock.QueryPerformanceCounter q1)
        ≤ GetRawTime (PlatformClock.QueryPerformanceCounter q2)) ∧
    (∀ v1 v2 : Nat, v1 ≤ v2 → v2 < 2 ^ 64 →
      GetRawTime (PlatformClock.mach_absolute_time v1)
        ≤ GetRawTime (PlatformClock.mach_absolute_time v2)) ∧
    (∀ c1 c2 : Int, 0 ≤ c1 → c1 ≤ c2 → c2 < 2 ^ 64 →
      GetRawTime (PlatformClock.steady_clock c1)
        ≤ GetRawTime (PlatformClock.steady_clock c2)) := by
  have e1 := posix_tick_exact ts1 hn1 hr1
  have e2 := posix_tick_exact ts2 hn2 hr2
  have hcast : ∀ a b : Int, 0 ≤ a → a ≤ b → b < 2 ^ 64 → castU64 a ≤ castU64 b := by
    intro a b ha hab hb
    unfold castU64
    rw [Int.emod_eq_of_lt ha (by omega), Int.emod_eq_of_lt (by omega) hb]
    omega
  refine ⟨?_, ?_, ?_, ?_, ?_⟩
  · have : ((GetRawTime (PlatformClock.clock_gettime ts1) : Nat) : Int)
        ≤ ((GetRawTime (PlatformClock.clock_gettime ts2) : Nat) : Int) := by
      rw [e1, e2]
      omega
    exact_mod_cast this
  · intro hne
    have hdiff : ts1.tv_sec ≠ ts2.tv_sec ∨ ts1.tv_nsec ≠ ts2.tv_nsec := by
      by_contra hcon
      push_neg at hcon
      apply hne
      cases ts1
      cases ts2
      simp only at hcon
      simp only [timespec.mk.injEq]
      exact hcon
    have : ((GetRawTime (PlatformClock.clock_gettime ts1) : Nat) : Int)
        < ((GetRawTime (PlatformClock.clock_gettime ts2) : Nat) : Int) := by
      rw [e1, e2]
      omega
    exact_mod_cast this
  · intro q1 q2 h0 h12 h2
    exact hcast q1 q2 h0 h12 h2
  · intro v1 v2 h12 h2
    simp only [GetRawTime, wrap64]
    rw [Nat.mod_eq_of_lt (by omega), Nat.mod_eq_of_lt h2]
    exact h12
  · intro c1 c2 h0 h12 h2
    exact hcast c1 c2 h0 h12 h2

theorem C10_ticks_monotone_witness :
    GetRawTime (PlatformClock.clock_gettime (timespec.mk 3 999999999))
      ≤ GetRawTime (PlatformClock.clock_gettime (timespec.mk 4 0)) ∧
    GetRawTime (PlatformClock.clock_gettime (timespec.mk 3 999999999))
      < GetRawTime (PlatformClock.clock_gettime (timespec.mk 4 0)) :=
  ⟨(C10_ticks_monotone (timespec.mk 3 999999999) (timespec.mk 4 0) (by decide) (by decide)
      (by decide) (by decide) (by decide)).1,
    (C10_ticks_monotone (timespec.mk 3 999999999) (timespec.mk 4 0) (by decide) (by decide)
      (by decide) (by decide) (by decide)).2.1 (by decide)⟩

/-! ## The two recorders side by side -/

theorem wrap64_GetRawTime (clk : PlatformClock) : wrap64 (GetRawTime clk) = GetRawTime clk := by
  unfold wrap64
  exact Nat.mod_eq_of_lt (GetRawTime_lt clk)

/-- The C recorder and the C++ recorder, started from states that hold the same
entries and run on the same calls, return the same values and end with the same
entries. -/
theorem runOps_refines (ops : List Op) : ∀ (t : ProTi) (v : Cpp.ProTi), WF t →
    entries t = v.timestamps →
    allocsSucceed ops = true → indicesValid t.count ops = true →
    t.count + countStarts ops ≤ 2 ^ 60 →
    ∃ t' v' outs, runOps t ops = Outcome.ok (t', outs) ∧
      Cpp.runOps v ops = some (v', outs) ∧ WF t' ∧ entries t' = v'.timestamps := by
  induction ops with
  | nil =>
      intro t v hwf he _ _ _
      exact ⟨t, v, [], rfl, rfl, hwf, he⟩
  | cons op ops ih =>
      intro t v hwf he halloc hidx hlen
      have hcount : v.timestamps.length = t.count := by
        rw [← he]
        exact entries_length t hwf
      have hread : ∀ index, index < t.count →
          index < (storage t).length ∧
          v.timestamps.get? index = some ((storage t).getD index 0) := by
        intro index hi
        have hcell : index < (storage t).length := by
          have h1 := hwf.1
          have h2 := hwf.2.2
          omega
        refine ⟨hcell, ?_⟩
        rw [← he, ← entries_getD t index hi, List.get?_eq_getElem?,
          List.getD_eq_getElem?_getD,
          List.getElem?_eq_getElem (by rw [entries_length t hwf]; exact hi)]
        rfl
      cases op with
      | start answer clk =>
          simp only [allocsSucceed, Bool.and_eq_true] at halloc
          simp only [indicesValid] at hidx
          simp only [countStarts] at hlen
          have hroom : t.count < t.capacity ∨ (answer.isSome ∧ t.capacity < 2 ^ 60) := by
            by_cases h : t.count < t.capacity
            · exact Or.inl h
            · have := hwf.1
              exact Or.inr ⟨halloc.1, by omega⟩
          obtain ⟨t1, hs, hwf1, hc1, _, he1⟩ := start_appends t answer clk hwf hroom
          obtain ⟨t', v', outs, hr, hr2, hwf', he'⟩ :=
            ih t1 (Cpp.ProTi.Start v clk) hwf1
              (by rw [he1, he]; rfl) halloc.2 (by rw [hc1]; exact hidx) (by rw [hc1]; omega)
          refine ⟨t', v', none :: outs, ?_, ?_, hwf', he'⟩
          · simp only [runOps, step, hs, hr]
          · simp only [Cpp.runOps, Cpp.step, hr2]
      | stop index clk =>
          simp only [allocsSucceed] at halloc
          simp only [indicesValid, Bool.and_eq_true, decide_eq_true_eq] at hidx
          simp only [countStarts] at hlen
          obtain ⟨hcell, hget⟩ := hread index hidx.1
          obtain ⟨t', v', outs, hr, hr2, hwf', he'⟩ := ih t v hwf he halloc hidx.2 hlen
          refine ⟨t', v', some (sub64 (GetRawTime clk) ((storage t).getD index 0)) :: outs,
            ?_, ?_, hwf', he'⟩
          · simp only [runOps, step, (read_cell t index hcell clk).2, hr]
          · simp only [Cpp.runOps, Cpp.step, Cpp.ProTi.Stop, hget, wrap64_GetRawTime, hr2]
      | returnTimestamp index =>
          simp only [allocsSucceed] at halloc
          simp only [indicesValid, Bool.and_eq_true, decide_eq_true_eq] at hidx
          simp only [countStarts] at hlen
          obtain ⟨hcell, hget⟩ := hread index hidx.1
          obtain ⟨t', v', outs, hr, hr2, hwf', he'⟩ := ih t v hwf he halloc hidx.2 hlen
          refine ⟨t', v', some ((storage t).getD index 0) :: outs, ?_, ?_, hwf', he'⟩
          · simp only [runOps, step,
              (read_cell t index hcell (PlatformClock.mach_absolute_time 0)).1, hr]
          · simp only [Cpp.runOps, Cpp.step, Cpp.ProTi.ReturnTimestamp, hget, hr2]
      | getTimestampCount =>
          simp only [allocsSucceed] at halloc
          simp only [indicesValid] at hidx
          simp only [countStarts] at hlen
          obtain ⟨t', v', outs, hr, hr2, hwf', he'⟩ := ih t v hwf he halloc hidx hlen
          refine ⟨t', v', some t.count :: outs, ?_, ?_, hwf', he'⟩
          · simp only [runOps, step, ProTi_GetTimestampCount, hr]
          · simp only [Cpp.runOps, Cpp.step, Cpp.ProTi.GetTimestampCount, hcount, hr2]
      | clearTimestamps =>
          simp only [allocsSucceed] at halloc
          simp only [indicesValid] at hidx
          simp only [countStarts] at hlen
          obtain ⟨t', v', outs, hr, hr2, hwf', he'⟩ :=
            ih (ProTi_ClearTimestamps t) (Cpp.ProTi.ClearTimestamps v) (clear_wf t hwf)
              (by rw [clear_entries]; rfl) halloc hidx
              (by
                show 0 + countStarts ops ≤ 2 ^ 60
                omega)
          refine ⟨t', v', none :: outs, ?_, ?_, hwf', he'⟩
          · simp only [runOps, step, hr]
          · simp only [Cpp.runOps, Cpp.step, hr2]

/-- C12: on every sequence of the five operations run from a fresh recorder
(every block request of the C recorder granted, every index below the count of
its moment, at most `2 ^ 60` starts), the C recorder and the C++ recorder
complete, return the same value from every operation, and the first `count`
cells of the C array are the contents of the vector. -/
theorem C12_c_and_cpp_recorders_agree (timer0 : ProTi) (ops : List Op)
    (halloc : allocsSucceed ops = true) (hidx : indicesValid 0 ops = true)
    (hlen : countStarts ops ≤ 2 ^ 60) :
    ∃ t v outs, runOps (ProTi_Init timer0) ops = Outcome.ok (t, outs) ∧
      Cpp.runOps Cpp.ProTi.construct ops = some (v, outs) ∧
      entries t = v.timestamps ∧
      (ProTi_GetTimestampCount t).2 = Cpp.ProTi.GetTimestampCount v := by
  obtain ⟨t, v, outs, hr, hr2, hwf, he⟩ :=
    runOps_refines ops (ProTi_Init timer0) Cpp.ProTi.construct (init_wf timer0) rfl halloc hidx
      (by
        show 0 + countStarts ops ≤ 2 ^ 60
        omega)
  refine ⟨t, v, outs, hr, hr2, he, ?_⟩
  show t.count = v.timestamps.length
  rw [← he, entries_length t hwf]

theorem C12_c_and_cpp_recorders_agree_witness :
    ∃ t v outs, runOps (ProTi_Init blankTimer) sampleOps = Outcome.ok (t, outs) ∧
      Cpp.runOps Cpp.ProTi.construct sampleOps = some (v, outs) ∧
      entries t = v.timestamps ∧
      (ProTi_GetTimestampCount t).2 = Cpp.ProTi.GetTimestampCount v :=
  C12_c_and_cpp_recorders_agree blankTimer sampleOps (by decide) (by decide) (by decide)


theorem castU64_int (x : Int) : ((castU64 x : Nat) : Int) = x % 2 ^ 64 := by
  unfold castU64
  exact Int.toNat_of_nonneg (Int.emod_nonneg _ (by norm_num))

/-- C13: the POSIX backend converts a reading of `sec` seconds and `nsec`
nanoseconds to `(sec * 1000000000 + nsec) mod 2 ^ 64`; on normalised readings
whose nanosecond value is a `uint64_t` the result is that value itself, and the
conversion is injective on such readings. -/
theorem C13_posix_conversion (ts : timespec) :
    ((GetRawTime (PlatformClock.clock_gettime ts) : Nat) : Int)
      = (ts.tv_sec * 1000000000 + ts.tv_nsec) % 2 ^ 64 ∧
    ((0 ≤ ts.tv_nsec ∧ ts.tv_nsec < 1000000000) →
      (0 ≤ ts.tv_sec * 1000000000 + ts.tv_nsec ∧
        ts.tv_sec * 1000000000 + ts.tv_nsec < 2 ^ 64) →
      ((GetRawTime (PlatformClock.clock_gettime ts) : Nat) : Int)
        = ts.tv_sec * 1000000000 + ts.tv_nsec) ∧
    (∀ ts2 : timespec,
      (0 ≤ ts.tv_nsec ∧ ts.tv_nsec < 1000000000) →
      (0 ≤ ts2.tv_nsec ∧ ts2.tv_nsec < 1000000000) →
      (0 ≤ ts.tv_sec * 1000000000 + ts.tv_nsec ∧
        ts.tv_sec * 1000000000 + ts.tv_nsec < 2 ^ 64) →
      (0 ≤ ts2.tv_sec * 1000000000 + ts2.tv_nsec ∧
        ts2.tv_sec * 1000000000 + ts2.tv_nsec < 2 ^ 64) →
      GetRawTime (PlatformClock.clock_gettime ts) = GetRawTime (PlatformClock.clock_gettime ts2) →
      ts = ts2) := by
  refine ⟨?_, ?_, ?_⟩
  · simp only [GetRawTime, wrap64]
    push_cast
    rw [castU64_int, castU64_int]
    simp only [Int.emod_emod_of_dvd, dvd_refl, Int.add_mul_emod_self, Int.emod_add_emod,
      Int.add_emod_emod, Int.mul_emod, Int.add_emod]
    simp
  · intro hn hr
    exact posix_tick_exact ts hn hr
  · intro ts2 hn hn2 hr hr2 heq
    have e1 := posix_tick_exact ts hn hr
    have e2 := posix_tick_exact ts2 hn2 hr2
    rw [heq, e2] at e1
    obtain ⟨s1, n1⟩ := ts
    obtain ⟨s2, n2⟩ := ts2
    simp only at hn hn2 e1
    simp only [timespec.mk.injEq]
    constructor <;> omega

theorem C13_posix_conversion_witness :
    ((GetRawTime (PlatformClock.clock_gettime (timespec.mk 3 5)) : Nat) : Int)
      = (3 : Int) * 1000000000 + 5 ∧
    (GetRawTime (PlatformClock.clock_gettime (timespec.mk 3 5))
        = GetRawTime (PlatformClock.clock_gettime (timespec.mk 3 5)) →
      timespec.mk 3 5 = timespec.mk 3 5) :=
  ⟨(C13_posix_conversion (timespec.mk 3 5)).2.1 (by decide) (by decide),
    (C13_posix_conversion (timespec.mk 3 5)).2.2 (timespec.mk 3 5) (by decide) (by decide)
      (by decide) (by decide)⟩


/-! ## Growth of the storage: facts -/

theorem ceilPow2_succ (c : Nat) :
    (if c = ceilPow2 c then (if ceilPow2 c = 0 then 1 else ceilPow2 c * 2) else ceilPow2 c)
      = ceilPow2 (c + 1) ∧
    (if c = ceilPow2 c then 1 else 0) + ceilLog2Succ c = ceilLog2Succ (c + 1) := by
  unfold ceilPow2 ceilLog2Succ
  by_cases hc : c = 0
  · subst hc
    simp [Nat.clog_one_right]
  · have hle : c ≤ 2 ^ Nat.clog 2 c := Nat.le_pow_clog (by norm_num) c
    have hpos : 0 < 2 ^ Nat.clog 2 c := Nat.pow_pos (by norm_num)
    simp only [hc, if_false, Nat.succ_ne_zero, Nat.add_eq_zero, one_ne_zero, and_false]
    by_cases heq : c = 2 ^ Nat.clog 2 c
    · have hk : Nat.clog 2 (c + 1) = Nat.clog 2 c + 1 := by
        apply le_antisymm
        · apply (Nat.le_pow_iff_clog_le (by norm_num)).mp
          rw [pow_succ]
          omega
        · apply (Nat.pow_lt_iff_lt_clog (by norm_num)).mp
          omega
      rw [if_pos heq, if_pos heq, if_neg (by omega), hk, pow_succ]
      exact ⟨rfl, by omega⟩
    · have hk : Nat.clog 2 (c + 1) = Nat.clog 2 c := by
        apply le_antisymm
        · apply (Nat.le_pow_iff_clog_le (by norm_num)).mp
          omega
        · exact Nat.clog_mono_right 2 (Nat.le_succ c)
      rw [if_neg heq, if_neg heq, hk]
      exact ⟨rfl, by omega⟩

theorem ceilPow2_least (n : Nat) (hn : 0 < n) :
    n ≤ ceilPow2 n ∧ ∀ j, n ≤ 2 ^ j → ceilPow2 n ≤ 2 ^ j := by
  unfold ceilPow2
  rw [if_neg (by omega)]
  refine ⟨Nat.le_pow_clog (by norm_num) n, ?_⟩
  intro j hj
  exact Nat.pow_le_pow_right (by norm_num) ((Nat.le_pow_iff_clog_le (by norm_num)).mp hj)

theorem allocsSucceed_starts_cons (answer : Option (Nat → Nat)) (clk : PlatformClock)
    (inputs : List (Option (Nat → Nat) × PlatformClock))
    (h : allocsSucceed (starts ((answer, clk) :: inputs)) = true) :
    answer.isSome = true ∧ allocsSucceed (starts inputs) = true := by
  simpa [starts, allocsSucceed] using h

/-- A run of starts on a recorder whose capacity is the power of two of its
count keeps that relation and reallocates as often as the exponent grows. -/
theorem starts_growth (inputs : List (Option (Nat → Nat) × PlatformClock)) :
    ∀ (t : ProTi), WF t → t.capacity = ceilPow2 t.count →
    allocsSucceed (starts inputs) = true → t.count + inputs.length ≤ 2 ^ 60 →
    ∃ t' outs, runOps t (starts inputs) = Outcome.ok (t', outs) ∧ WF t' ∧
      t'.count = t.count + inputs.length ∧ t'.capacity = ceilPow2 t'.count ∧
      reallocsIn t (starts inputs) + ceilLog2Succ t.count = ceilLog2Succ t'.count := by
  induction inputs with
  | nil =>
      intro t hwf hcap _ _
      exact ⟨t, [], rfl, hwf, rfl, hcap, by simp [starts, reallocsIn]⟩
  | cons x inputs ih =>
      intro t hwf hcap halloc hlen
      obtain ⟨answer, clk⟩ := x
      obtain ⟨ha, halloc'⟩ := allocsSucceed_starts_cons answer clk inputs halloc
      simp only [List.length_cons] at hlen
      have hroom : t.count < t.capacity ∨ (answer.isSome ∧ t.capacity < 2 ^ 60) := by
        by_cases h : t.count < t.capacity
        · exact Or.inl h
        · have := hwf.1
          exact Or.inr ⟨ha, by omega⟩
      obtain ⟨t1, hs, hwf1, hc1, hcap1, _⟩ := start_appends t answer clk hwf hroom
      have hstep := ceilPow2_succ t.count
      have hcap1' : t1.capacity = ceilPow2 t1.count := by
        rw [hcap1, hc1, ← hstep.1]
        unfold capacityAfterStart
        rw [hcap]
      obtain ⟨t', outs, hr, hwf', hc', hcap', hre⟩ :=
        ih t1 hwf1 hcap1' halloc' (by rw [hc1]; omega)
      refine ⟨t', none :: outs, ?_, hwf', ?_, hcap', ?_⟩
      · simp only [starts, List.map_cons, runOps, step, hs]
        have hr' := hr
        simp only [starts] at hr'
        rw [hr']
      · rw [hc', hc1, List.length_cons]
        omega
      · have hre' : reallocsIn t (starts ((answer, clk) :: inputs))
            = (if t.count = t.capacity then 1 else 0) + reallocsIn t1 (starts inputs) := by
          simp only [starts, List.map_cons, reallocsIn, step, hs]
        rw [hre', ← hre, hc1, ← hstep.2, hcap]
        omega

/-- C14: `ProTi_Start` consults `realloc` only when `count == capacity`, and then
the capacity becomes 1 from 0 and twice its value otherwise. After `n` starts on
a freshly initialised recorder (blocks granted, `n ≤ 2 ^ 60`) the capacity is 0
for `n = 0` and the smallest power of two at least `n` otherwise, and
`⌈log2 n⌉ + 1` of the `n` calls reallocate. -/
theorem C14_geometric_growth (timer0 : ProTi)
    (inputs : List (Option (Nat → Nat) × PlatformClock))
    (halloc : allocsSucceed (starts inputs) = true) (hlen : inputs.length ≤ 2 ^ 60) :
    (∃ t outs, runOps (ProTi_Init timer0) (starts inputs) = Outcome.ok (t, outs) ∧
      t.count = inputs.length ∧
      (inputs.length = 0 → t.capacity = 0 ∧
        reallocsIn (ProTi_Init timer0) (starts inputs) = 0) ∧
      (0 < inputs.length →
        t.capacity = 2 ^ Nat.clog 2 inputs.length ∧
        inputs.length ≤ t.capacity ∧
        (∀ j, inputs.length ≤ 2 ^ j → t.capacity ≤ 2 ^ j) ∧
        reallocsIn (ProTi_Init timer0) (starts inputs) = Nat.clog 2 inputs.length + 1)) ∧
    (∀ (t : ProTi) (answer other : Option (Nat → Nat)) (clk : PlatformClock),
      t.count ≠ t.capacity → ProTi_Start t answer clk = ProTi_Start t other clk) ∧
    (∀ (t : ProTi) (answer : Option (Nat → Nat)) (clk : PlatformClock), WF t →
      t.count < t.capacity ∨ (answer.isSome = true ∧ t.capacity < 2 ^ 60) →
      ∃ t', ProTi_Start t answer clk = Outcome.ok t' ∧
        (t.count ≠ t.capacity → t'.capacity = t.capacity) ∧
        (t.count = t.capacity → t.capacity = 0 → t'.capacity = 1) ∧
        (t.count = t.capacity → t.capacity ≠ 0 → t'.capacity = 2 * t.capacity)) := by
  refine ⟨?_, ?_, ?_⟩
  · obtain ⟨t, outs, hr, _, hc, hcap, hre⟩ :=
      starts_growth inputs (ProTi_Init timer0) (init_wf timer0) rfl halloc
        (by
          show 0 + inputs.length ≤ 2 ^ 60
          omega)
    have hc' : t.count = inputs.length := by
      rw [hc]
      show 0 + inputs.length = inputs.length
      omega
    have hre' : reallocsIn (ProTi_Init timer0) (starts inputs) = ceilLog2Succ inputs.length := by
      rw [← hc', ← hre]
      show _ = _ + ceilLog2Succ 0
      simp [ceilLog2Succ]
    rw [hc'] at hcap
    refine ⟨t, outs, hr, hc', ?_, ?_⟩
    · intro h0
      rw [hcap, hre', h0]
      exact ⟨rfl, rfl⟩
    · intro hpos
      have hl := ceilPow2_least inputs.length hpos
      have hne : inputs.length ≠ 0 := by omega
      have e1 : ceilPow2 inputs.length = 2 ^ Nat.clog 2 inputs.length := by
        unfold ceilPow2
        rw [if_neg hne]
      have e2 : ceilLog2Succ inputs.length = Nat.clog 2 inputs.length + 1 := by
        unfold ceilLog2Succ
        rw [if_neg hne]
      rw [hcap, hre']
      exact ⟨e1, hl.1, hl.2, e2⟩
  · intro t answer other clk hne
    simp only [ProTi_Start, if_neg hne]
  · intro t answer clk hwf hroom
    obtain ⟨t', hs, _, _, hcap, _⟩ := start_appends t answer clk hwf hroom
    refine ⟨t', hs, ?_, ?_, ?_⟩
    · intro hne
      rw [hcap, capacityAfterStart, if_neg hne]
    · intro he h0
      rw [hcap, capacityAfterStart, if_pos he, if_pos h0]
    · intro he h0
      rw [hcap, capacityAfterStart, if_pos he, if_neg h0]
      omega


theorem C14_geometric_growth_witness :
    ∃ t outs, runOps (ProTi_Init blankTimer) (starts fourInputs) = Outcome.ok (t, outs) ∧
      t.count = 4 ∧ t.capacity = 2 ^ Nat.clog 2 4 ∧ 4 ≤ t.capacity ∧
      reallocsIn (ProTi_Init blankTimer) (starts fourInputs) = Nat.clog 2 4 + 1 ∧
      reallocsIn (ProTi_Init blankTimer) (starts fourInputs) = 3 := by
  obtain ⟨t, outs, hr, hc, _, h⟩ :=
    (C14_geometric_growth blankTimer fourInputs (by decide) (by decide)).1
  obtain ⟨h1, h2, _, h4⟩ := h (by decide)
  exact ⟨t, outs, hr, hc, h1, h2, h4, by decide⟩

/-! ## Reuse of the storage after a clear -/

theorem take_succ_set (l : List Nat) (n x : Nat) (h : n < l.length) :
    (l.set n x).take (n + 1) = l.take n ++ [x] := by
  rw [List.take_succ, take_set_self]
  congr 1
  simp [List.getElem?_set_self h]

/-- A start on a recorder with room writes the tick into the cell at `count` of
the same block, whatever the allocator would have answered. -/
theorem start_in_place (t : ProTi) (answer : Option (Nat → Nat)) (clk : PlatformClock)
    (hwf : WF t) (hroom : t.count < t.capacity) :
    ProTi_Start t answer clk
      = Outcome.ok (ProTi.mk (some ((storage t).set t.count (GetRawTime clk)))
          (t.count + 1) t.capacity) := by
  obtain ⟨_, hcap, hlen⟩ := hwf
  have hne : ¬ t.count = t.capacity := by omega
  have hts := timestamps_of_lt t t.count (by omega)
  unfold ProTi_Start
  simp only [hne, if_false]
  rw [hts]
  simp only [storage_of_some t _ hts]
  rw [if_pos (by omega)]
  have hw : wrap64 (t.count + 1) = t.count + 1 := by
    unfold wrap64
    exact Nat.mod_eq_of_lt (by omega)
  rw [hw]

/-- Starts that fit into the capacity never reallocate: they overwrite the
cells from `count` on and leave the rest of the block alone. -/
theorem starts_in_place (inputs : List (Option (Nat → Nat) × PlatformClock)) :
    ∀ (t : ProTi), WF t → t.count + inputs.length ≤ t.capacity →
    ∃ t' outs, runOps t (starts inputs) = Outcome.ok (t', outs) ∧ WF t' ∧
      reallocsIn t (starts inputs) = 0 ∧ t'.capacity = t.capacity ∧
      t'.count = t.count + inputs.length ∧
      storage t' = (storage t).take t.count ++ inputs.map (fun x => GetRawTime x.2)
        ++ (storage t).drop (t.count + inputs.length) := by
  induction inputs with
  | nil =>
      intro t hwf _
      refine ⟨t, [], rfl, hwf, rfl, rfl, rfl, ?_⟩
      simp
  | cons x inputs ih =>
      intro t hwf hfit
      obtain ⟨answer, clk⟩ := x
      simp only [List.length_cons] at hfit
      have hroom : t.count < t.capacity := by omega
      have hs := start_in_place t answer clk hwf hroom
      have hlen := hwf.2.2
      have hwf1 : WF (ProTi.mk (some ((storage t).set t.count (GetRawTime clk)))
          (t.count + 1) t.capacity) := by
        refine ⟨?_, hwf.2.1, ?_⟩
        · show t.count + 1 ≤ t.capacity
          omega
        · show ((storage t).set t.count (GetRawTime clk)).length = t.capacity
          rw [List.length_set]
          exact hlen
      obtain ⟨t', outs, hr, hwf', hre, hcap', hc', hst'⟩ :=
        ih _ hwf1 (by
          show t.count + 1 + inputs.length ≤ t.capacity
          omega)
      refine ⟨t', none :: outs, ?_, hwf', ?_, hcap', ?_, ?_⟩
      · simp only [starts, List.map_cons, runOps, step, hs]
        have hr' := hr
        simp only [starts] at hr'
        rw [hr']
      · have hne : ¬ t.count = t.capacity := by omega
        have hre' := hre
        simp only [starts] at hre'
        simp only [starts, List.map_cons, reallocsIn, step, hs, if_neg hne, hre']
      · rw [hc', List.length_cons]
        show t.count + 1 + inputs.length = t.count + (inputs.length + 1)
        omega
      · rw [hst']
        show ((storage t).set t.count (GetRawTime clk)).take (t.count + 1)
            ++ inputs.map (fun x => GetRawTime x.2)
            ++ ((storage t).set t.count (GetRawTime clk)).drop (t.count + 1 + inputs.length)
          = (storage t).take t.count ++ ((answer, clk) :: inputs).map (fun x => GetRawTime x.2)
            ++ (storage t).drop (t.count + ((answer, clk) :: inputs).length)
        rw [take_succ_set _ _ _ (by omega), List.drop_set_of_lt _ _ (by omega)]
        simp only [List.map_cons, List.length_cons, List.append_assoc, List.singleton_append]
        congr 3
        omega

/-- C15: `ProTi_ClearTimestamps` sets the count to 0 and leaves the capacity and
the block untouched; on a well-formed recorder the next starts, up to `capacity`
of them, complete without any reallocation (whatever the allocator would
answer), keep the capacity and overwrite the block from index 0, the cells
beyond them keeping their old values. -/
theorem C15_clear_keeps_storage (t : ProTi)
    (inputs : List (Option (Nat → Nat) × PlatformClock))
    (hwf : WF t) (hfit : inputs.length ≤ t.capacity) :
    (ProTi_ClearTimestamps t).count = 0 ∧
    (ProTi_ClearTimestamps t).capacity = t.capacity ∧
    (ProTi_ClearTimestamps t).timestamps = t.timestamps ∧
    ∃ t' outs,
      runOps (ProTi_ClearTimestamps t) (starts inputs) = Outcome.ok (t', outs) ∧
      reallocsIn (ProTi_ClearTimestamps t) (starts inputs) = 0 ∧
      t'.capacity = t.capacity ∧ t'.count = inputs.length ∧
      storage t' = inputs.map (fun x => GetRawTime x.2) ++ (storage t).drop inputs.length := by
  refine ⟨rfl, rfl, rfl, ?_⟩
  obtain ⟨t', outs, hr, _, hre, hcap, hc, hst⟩ :=
    starts_in_place inputs (ProTi_ClearTimestamps t) (clear_wf t hwf)
      (by
        show 0 + inputs.length ≤ t.capacity
        omega)
  refine ⟨t', outs, hr, hre, hcap, ?_, ?_⟩
  · rw [hc]
    show 0 + inputs.length = inputs.length
    omega
  · rw [hst]
    show (storage t).take 0 ++ inputs.map (fun x => GetRawTime x.2)
        ++ (storage t).drop (0 + inputs.length) = _
    simp

theorem C15_clear_keeps_storage_witness :
    (ProTi_ClearTimestamps fourRecorded).count = 0 ∧
    (ProTi_ClearTimestamps fourRecorded).capacity = fourRecorded.capacity ∧
    (ProTi_ClearTimestamps fourRecorded).timestamps = fourRecorded.timestamps ∧
    ∃ t' outs,
      runOps (ProTi_ClearTimestamps fourRecorded) (starts twoDenied) = Outcome.ok (t', outs) ∧
      reallocsIn (ProTi_ClearTimestamps fourRecorded) (starts twoDenied) = 0 ∧
      t'.capacity = fourRecorded.capacity ∧ t'.count = twoDenied.length ∧
      storage t' = twoDenied.map (fun x => GetRawTime x.2)
        ++ (storage fourRecorded).drop twoDenied.length :=
  C15_clear_keeps_storage fourRecorded twoDenied (by decide) (by decide)


/-! ## Order of the recorded ticks: facts -/

theorem ticksSinceClear_sorted (ops : List Op) : ∀ (acc : List Nat),
    (acc ++ startTicks ops).Pairwise (· ≤ ·) → (ticksSinceClear acc ops).Pairwise (· ≤ ·) := by
  induction ops with
  | nil =>
      intro acc h
      simpa [startTicks, ticksSinceClear] using h
  | cons op ops ih =>
      intro acc h
      cases op with
      | start answer clk =>
          simp only [startTicks] at h
          simp only [ticksSinceClear]
          apply ih
          rw [List.append_assoc]
          exact h
      | stop index clk =>
          simp only [startTicks] at h
          simp only [ticksSinceClear]
          exact ih acc h
      | returnTimestamp index =>
          simp only [startTicks] at h
          simp only [ticksSinceClear]
          exact ih acc h
      | getTimestampCount =>
          simp only [startTicks] at h
          simp only [ticksSinceClear]
          exact ih acc h
      | clearTimestamps =>
          simp only [startTicks] at h
          simp only [ticksSinceClear]
          apply ih
          exact (List.pairwise_append.mp h).2.1

/-- C16: when the clock readings given to the successive starts of a sequence
run from `ProTi_Init` are non-decreasing (blocks granted, indices below the
count of their moment, at most `2 ^ 60` starts), the final recorder returns
non-decreasing ticks at increasing indices below its count, and a stop taken at
a clock reading not below the later tick returns at least as much for the
smaller index. -/
theorem C16_entries_chronological (timer0 : ProTi) (ops : List Op)
    (halloc : allocsSucceed ops = true) (hidx : indicesValid 0 ops = true)
    (hlen : countStarts ops ≤ 2 ^ 60) (hmono : (startTicks ops).Pairwise (· ≤ ·)) :
    ∃ t outs, runOps (ProTi_Init timer0) ops = Outcome.ok (t, outs) ∧
      ∀ i j, i < j → j < t.count →
        ∃ ti tj, ProTi_ReturnTimestamp t i = Outcome.ok (t, ti) ∧
          ProTi_ReturnTimestamp t j = Outcome.ok (t, tj) ∧ ti ≤ tj ∧
          ∀ clk, tj ≤ GetRawTime clk →
            ∃ ei ej, ProTi_Stop t i clk = Outcome.ok (t, ei) ∧
              ProTi_Stop t j clk = Outcome.ok (t, ej) ∧ ej ≤ ei := by
  obtain ⟨t, outs, hr, hwf, _, he⟩ :=
    runOps_spec ops (ProTi_Init timer0) (init_wf timer0) halloc hidx
      (by
        show 0 + countStarts ops ≤ 2 ^ 60
        omega)
  have hsorted : (entries t).Pairwise (· ≤ ·) := by
    rw [he]
    exact ticksSinceClear_sorted ops [] (by simpa using hmono)
  have hlenE := entries_length t hwf
  refine ⟨t, outs, hr, ?_⟩
  intro i j hij hj
  have hi : i < t.count := by omega
  have hcell : ∀ k, k < t.count → k < (storage t).length := by
    intro k hk
    have h1 := hwf.1
    have h2 := hwf.2.2
    omega
  have hle : (storage t).getD i 0 ≤ (storage t).getD j 0 := by
    rw [← entries_getD t i hi, ← entries_getD t j hj,
      List.getD_eq_getElem?_getD, List.getD_eq_getElem?_getD,
      List.getElem?_eq_getElem (by omega), List.getElem?_eq_getElem (by omega)]
    exact List.pairwise_iff_getElem.mp hsorted i j (by omega) (by omega) hij
  refine ⟨(storage t).getD i 0, (storage t).getD j 0,
    (read_cell t i (hcell i hi) (PlatformClock.mach_absolute_time 0)).1,
    (read_cell t j (hcell j hj) (PlatformClock.mach_absolute_time 0)).1, hle, ?_⟩
  intro clk hnow
  refine ⟨_, _, (read_cell t i (hcell i hi) clk).2, (read_cell t j (hcell j hj) clk).2, ?_⟩
  rw [sub64_exact _ _ hnow (GetRawTime_lt clk),
    sub64_exact _ _ (le_trans hle hnow) (GetRawTime_lt clk)]
  omega

theorem C16_entries_chronological_witness :
    ∃ t outs, runOps (ProTi_Init blankTimer) (starts fourInputs) = Outcome.ok (t, outs) ∧
      ∀ i j, i < j → j < t.count →
        ∃ ti tj, ProTi_ReturnTimestamp t i = Outcome.ok (t, ti) ∧
          ProTi_ReturnTimestamp t j = Outcome.ok (t, tj) ∧ ti ≤ tj ∧
          ∀ clk, tj ≤ GetRawTime clk →
            ∃ ei ej, ProTi_Stop t i clk = Outcome.ok (t, ei) ∧
              ProTi_Stop t j clk = Outcome.ok (t, ej) ∧ ej ≤ ei :=
  C16_entries_chronological blankTimer (starts fourInputs) (by decide) (by decide) (by decide)
    (by decide)


/-! ## Reachable recorder states -/

/-- A start that returns found room in the block, or had a block granted whose
doubled byte size fits `size_t`. -/
theorem start_ok_room (t t' : ProTi) (answer : Option (Nat → Nat)) (clk : PlatformClock)
    (hwf : WF t) (h : ProTi_Start t answer clk = Outcome.ok t') :
    t.count < t.capacity ∨ (answer.isSome = true ∧ t.capacity < 2 ^ 60) := by
  obtain ⟨hcc, hcap, hlen⟩ := hwf
  by_cases hroom : t.count < t.capacity
  · exact Or.inl hroom
  · right
    have hfull : t.count = t.capacity := by omega
    cases answer with
    | none =>
        simp [ProTi_Start, realloc, hfull] at h
    | some junk =>
        refine ⟨rfl, ?_⟩
        by_contra hbig
        have hne : t.capacity ≠ 0 := by omega
        unfold storage at hlen
        simp only [ProTi_Start, realloc, hfull, if_true, hne, ne_eq, not_false_eq_true,
          List.length_append, List.length_take, List.length_map, List.length_range,
          hlen, wrap64] at h
        split_ifs at h with hlt
        omega

theorem readers_keep_state (t t' : ProTi) (index v : Nat) (clk : PlatformClock) :
    (ProTi_Stop t index clk = Outcome.ok (t', v) → t' = t) ∧
    (ProTi_ReturnTimestamp t index = Outcome.ok (t', v) → t' = t) := by
  unfold ProTi_Stop ProTi_ReturnTimestamp
  cases t.timestamps with
  | none => simp
  | some block =>
      simp only
      generalize block.get? index = r
      cases r with
      | none =>
          constructor <;> intro h <;> cases h
      | some ts =>
          simp only [Outcome.ok.injEq, Prod.mk.injEq]
          exact ⟨fun h => h.1.symm, fun h => h.1.symm⟩

/-- Every run that completes keeps the representation invariant, and the block
pointer is `NULL` exactly while the capacity is 0. -/
theorem runOps_keeps_wf (ops : List Op) : ∀ (t t' : ProTi) (outs : List (Option Nat)),
    WF t → (t.capacity = 0 ↔ t.timestamps = none) →
    runOps t ops = Outcome.ok (t', outs) →
    WF t' ∧ (t'.capacity = 0 ↔ t'.timestamps = none) := by
  induction ops with
  | nil =>
      intro t t' outs hwf hnull h
      simp only [runOps, Outcome.ok.injEq, Prod.mk.injEq] at h
      rw [← h.1]
      exact ⟨hwf, hnull⟩
  | cons op ops ih =>
      intro t t' outs hwf hnull h
      simp only [runOps] at h
      cases hst : step t op with
      | undefined f =>
          rw [hst] at h
          cases h
      | ok r =>
          obtain ⟨t1, out⟩ := r
          rw [hst] at h
          simp only at h
          cases hrest : runOps t1 ops with
          | undefined f =>
              rw [hrest] at h
              cases h
          | ok r2 =>
              obtain ⟨t2, outs2⟩ := r2
              rw [hrest] at h
              simp only [Outcome.ok.injEq, Prod.mk.injEq] at h
              rw [← h.1]
              have key : WF t1 ∧ (t1.capacity = 0 ↔ t1.timestamps = none) := by
                cases op with
                | start answer clk =>
                    simp only [step] at hst
                    cases hs : ProTi_Start t answer clk with
                    | undefined f =>
                        rw [hs] at hst
                        cases hst
                    | ok t1' =>
                        rw [hs] at hst
                        simp only [Outcome.ok.injEq, Prod.mk.injEq] at hst
                        have hroom := start_ok_room t t1' answer clk hwf hs
                        obtain ⟨t1'', hs', hwf1, hc1, _, _⟩ :=
                          start_appends t answer clk hwf
                            (by
                              rcases hroom with h1 | h1
                              · exact Or.inl h1
                              · exact Or.inr ⟨h1.1, h1.2⟩)
                        rw [hs] at hs'
                        simp only [Outcome.ok.injEq] at hs'
                        rw [← hst.1, hs']
                        refine ⟨hwf1, ?_⟩
                        have h1 := hwf1.1
                        have h2 := hwf1.2.2
                        constructor
                        · intro h0
                          omega
                        · intro hn
                          have : (storage t1'').length = 0 := by
                            simp [storage, hn]
                          omega
                | stop index clk =>
                    simp only [step] at hst
                    cases hs : ProTi_Stop t index clk with
                    | undefined f =>
                        rw [hs] at hst
                        cases hst
                    | ok r3 =>
                        obtain ⟨t3, v⟩ := r3
                        rw [hs] at hst
                        simp only [Outcome.ok.injEq, Prod.mk.injEq] at hst
                        have := (readers_keep_state t t3 index v clk).1 hs
                        rw [← hst.1, this]
                        exact ⟨hwf, hnull⟩
                | returnTimestamp index =>
                    simp only [step] at hst
                    cases hs : ProTi_ReturnTimestamp t index with
                    | undefined f =>
                        rw [hs] at hst
                        cases hst
                    | ok r3 =>
                        obtain ⟨t3, v⟩ := r3
                        rw [hs] at hst
                        simp only [Outcome.ok.injEq, Prod.mk.injEq] at hst
                        have := (readers_keep_state t t3 index v
                          (PlatformClock.mach_absolute_time 0)).2 hs
                        rw [← hst.1, this]
                        exact ⟨hwf, hnull⟩
                | getTimestampCount =>
                    simp only [step, ProTi_GetTimestampCount, Outcome.ok.injEq,
                      Prod.mk.injEq] at hst
                    rw [← hst.1]
                    exact ⟨hwf, hnull⟩
                | clearTimestamps =>
                    simp only [step, Outcome.ok.injEq, Prod.mk.injEq] at hst
                    rw [← hst.1]
                    exact ⟨clear_wf t hwf, hnull⟩
              exact ih t1 t2 outs2 key.1 key.2 hrest

/-- C17: every recorder state reached from `ProTi_Init` by a run that completes
has `count ≤ capacity`, a block of exactly `capacity` cells, and a `NULL` block
pointer exactly when the capacity is 0; so every read at an index below the
count succeeds, and a start whose block is available writes inside the block.
A run completes whenever its blocks are granted, its indices are below the
count of their moment and it has at most `2 ^ 60` starts. -/
theorem C17_count_within_capacity (timer0 : ProTi) (ops : List Op) :
    (∀ t outs, runOps (ProTi_Init timer0) ops = Outcome.ok (t, outs) →
      t.count ≤ t.capacity ∧ (storage t).length = t.capacity ∧
      (t.capacity = 0 ↔ t.timestamps = none) ∧
      (∀ i clk, i < t.count →
        ∃ v e, ProTi_ReturnTimestamp t i = Outcome.ok (t, v) ∧
          ProTi_Stop t i clk = Outcome.ok (t, e)) ∧
      (∀ answer clk,
        t.count < t.capacity ∨ (answer.isSome = true ∧ t.capacity < 2 ^ 60) →
        ∃ t1, ProTi_Start t answer clk = Outcome.ok t1 ∧
          t.count < (storage t1).length ∧ (storage t1).length = t1.capacity)) ∧
    (allocsSucceed ops = true → indicesValid 0 ops = true → countStarts ops ≤ 2 ^ 60 →
      ∃ t outs, runOps (ProTi_Init timer0) ops = Outcome.ok (t, outs)) := by
  constructor
  · intro t outs hr
    obtain ⟨hwf, hnull⟩ :=
      runOps_keeps_wf ops (ProTi_Init timer0) t outs (init_wf timer0)
        (by simp [ProTi_Init]) hr
    refine ⟨hwf.1, hwf.2.2, hnull, ?_, ?_⟩
    · intro i clk hi
      have hcell : i < (storage t).length := by
        have h1 := hwf.1
        have h2 := hwf.2.2
        omega
      exact ⟨_, _, (read_cell t i hcell clk).1, (read_cell t i hcell clk).2⟩
    · intro answer clk hroom
      obtain ⟨t1, hs, hwf1, hc1, _, _⟩ := start_appends t answer clk hwf
        (by
          rcases hroom with h1 | h1
          · exact Or.inl h1
          · exact Or.inr ⟨h1.1, h1.2⟩)
      refine ⟨t1, hs, ?_, hwf1.2.2⟩
      have h1 := hwf1.1
      have h2 := hwf1.2.2
      omega
  · intro halloc hidx hlen
    obtain ⟨t, outs, hr, _⟩ :=
      runOps_spec ops (ProTi_Init timer0) (init_wf timer0) halloc hidx
        (by
          show 0 + countStarts ops ≤ 2 ^ 60
          omega)
    exact ⟨t, outs, hr⟩

theorem C17_count_within_capacity_witness :
    ∃ t outs, runOps (ProTi_Init blankTimer) sampleOps = Outcome.ok (t, outs) ∧
      t.count ≤ t.capacity ∧ (storage t).length = t.capacity ∧
      (t.capacity = 0 ↔ t.timestamps = none) := by
  obtain ⟨t, outs, hr⟩ :=
    (C17_count_within_capacity blankTimer sampleOps).2 (by decide) (by decide) (by decide)
  obtain ⟨h1, h2, h3, _⟩ := (C17_count_within_capacity blankTimer sampleOps).1 t outs hr
  exact ⟨t, outs, hr, h1, h2, h3⟩


/-! ## Threads sharing one recorder: facts -/

/-- The three parts of line 97-101 make up `ProTi_Start`. -/
theorem ProTi_Start_eq_steps (t : ProTi) (answer : Option (Nat → Nat)) (clk : PlatformClock) :
    ProTi_Start t answer clk
      = match startStore (startGrow t answer) clk with
        | Outcome.ok t2 => Outcome.ok (startInc t2)
        | Outcome.undefined f => Outcome.undefined f := by
  unfold ProTi_Start startStore
  show (match (startGrow t answer).timestamps with
    | none => Outcome.undefined (startGrow t answer)
    | some block =>
        if (startGrow t answer).count < block.length then
          Outcome.ok { startGrow t answer with
            timestamps := some (block.set (startGrow t answer).count (GetRawTime clk))
            count := wrap64 ((startGrow t answer).count + 1) }
        else Outcome.undefined (startGrow t answer)) = _
  cases (startGrow t answer).timestamps with
  | none => rfl
  | some block =>
      simp only
      split_ifs
      · rfl
      · rfl

theorem getD_set_self (l : List Pc) (i : Nat) (x d : Pc) (h : i < l.length) :
    (l.set i x).getD i d = x := by
  rw [List.getD_eq_getElem?_getD, List.getElem?_set_self h]
  rfl

theorem getD_set_ne (l : List Pc) (i j : Nat) (x d : Pc) (h : j ≠ i) :
    (l.set i x).getD j d = l.getD j d := by
  rw [List.getD_eq_getElem?_getD, List.getD_eq_getElem?_getD,
    List.getElem?_set_ne (fun e => h e.symm)]

theorem lt_of_pcAt_ne_done (σ : Shared) (i : Nat) (h : pcAt σ i ≠ Pc.done) :
    i < σ.pcs.length := by
  by_contra hge
  apply h
  unfold pcAt
  rw [List.getD_eq_getElem?_getD, List.getElem?_eq_none (by omega)]
  rfl

theorem length_le_of_nodup_lt (l : List Nat) (n : Nat) (hnd : l.Nodup)
    (hlt : ∀ x ∈ l, x < n) : l.length ≤ n := by
  have h1 : l.toFinset.card = l.length := List.toFinset_card_of_nodup hnd
  have h2 : l.toFinset ⊆ Finset.range n := by
    intro x hx
    rw [List.mem_toFinset] at hx
    exact Finset.mem_range.mpr (hlt x hx)
  have h3 := Finset.card_le_card h2
  rw [Finset.card_range] at h3
  omega

/-- Growth of the block: nothing recorded changes and room appears. -/
theorem startGrow_spec (t : ProTi) (answer : Option (Nat → Nat)) (hwf : WF t)
    (ha : answer.isSome = true) (hc : t.count < 2 ^ 60) :
    WF (startGrow t answer) ∧ entries (startGrow t answer) = entries t ∧
    (startGrow t answer).count < (startGrow t answer).capacity := by
  obtain ⟨hcc, hcap, hlen⟩ := hwf
  obtain ⟨junk, hj⟩ := Option.isSome_iff_exists.mp ha
  subst hj
  by_cases hfull : t.count = t.capacity
  · have hnew : (if t.capacity ≠ 0 then wrap64 (t.capacity * 2) else 1)
        = capacityAfterStart t := by
      unfold capacityAfterStart wrap64
      rw [if_pos hfull]
      by_cases h0 : t.capacity = 0
      · simp [h0]
      · rw [if_pos h0, if_neg h0]
        exact Nat.mod_eq_of_lt (by omega)
    have hgrow : t.capacity < capacityAfterStart t ∧ capacityAfterStart t < 2 ^ 61 := by
      unfold capacityAfterStart
      rw [if_pos hfull]
      split <;> omega
    have hsize : wrap64 (capacityAfterStart t * 8) / 8 = capacityAfterStart t := by
      unfold wrap64
      rw [Nat.mod_eq_of_lt (by omega)]
      omega
    have hold : t.timestamps.getD [] = storage t := rfl
    have hblock : realloc t.timestamps (wrap64 (capacityAfterStart t * 8)) (some junk)
        = some (storage t ++ (List.range (capacityAfterStart t - t.capacity)).map
            (fun j => wrap64 (junk j))) := by
      unfold realloc
      simp only [hsize, hold, hlen]
      rw [List.take_of_length_le (by omega)]
    have hg : startGrow t (some junk)
        = ProTi.mk (some (storage t ++ (List.range (capacityAfterStart t - t.capacity)).map
            (fun j => wrap64 (junk j)))) t.count (capacityAfterStart t) := by
      unfold startGrow
      simp only [hfull, if_true, hnew, hblock]
    rw [hg]
    refine ⟨⟨?_, hgrow.2, ?_⟩, ?_, ?_⟩
    · show t.count ≤ capacityAfterStart t
      omega
    · simp only [storage, Option.getD_some, List.length_append, List.length_map,
        List.length_range]
      have := hlen
      unfold storage at this
      omega
    · unfold entries
      simp only [storage, Option.getD_some]
      have hl : (t.timestamps.getD []).length = t.count := by
        have := hlen
        unfold storage at this
        omega
      rw [List.take_append_of_le_length (by omega)]
    · show t.count < capacityAfterStart t
      omega
  · have hg : startGrow t (some junk) = t := by
      unfold startGrow
      rw [if_neg hfull]
    rw [hg]
    exact ⟨⟨hcc, hcap, hlen⟩, rfl, by omega⟩

/-- The store: the tick lands in the cell at `count`, nothing else changes. -/
theorem startStore_spec (t : ProTi) (clk : PlatformClock) (hwf : WF t)
    (hroom : t.count < t.capacity) :
    ∃ t2, startStore t clk = Outcome.ok t2 ∧ WF t2 ∧ entries t2 = entries t ∧
      t2.count = t.count ∧ t2.capacity = t.capacity ∧
      (storage t2).getD t2.count 0 = GetRawTime clk := by
  obtain ⟨hcc, hcap, hlen⟩ := hwf
  have hts := timestamps_of_lt t t.count (by omega)
  refine ⟨ProTi.mk (some ((storage t).set t.count (GetRawTime clk))) t.count t.capacity,
    ?_, ⟨hcc, hcap, ?_⟩, ?_, rfl, rfl, ?_⟩
  · unfold startStore
    rw [hts]
    simp only [storage_of_some t _ hts]
    rw [if_pos (by omega)]
  · show ((storage t).set t.count (GetRawTime clk)).length = t.capacity
    rw [List.length_set]
    exact hlen
  · show ((storage t).set t.count (GetRawTime clk)).take t.count = (storage t).take t.count
    exact take_set_self _ _ _
  · show ((storage t).set t.count (GetRawTime clk)).getD t.count 0 = GetRawTime clk
    rw [List.getD_eq_getElem?_getD, List.getElem?_set_self (by omega)]
    rfl

/-- The increment: the cell at `count` joins the recorded entries. -/
theorem startInc_spec (t : ProTi) (x : Nat) (hwf : WF t) (hroom : t.count < t.capacity)
    (hcell : (storage t).getD t.count 0 = x) :
    WF (startInc t) ∧ entries (startInc t) = entries t ++ [x] := by
  obtain ⟨hcc, hcap, hlen⟩ := hwf
  have hw : wrap64 (t.count + 1) = t.count + 1 := by
    unfold wrap64
    exact Nat.mod_eq_of_lt (by omega)
  refine ⟨⟨?_, hcap, hlen⟩, ?_⟩
  · show wrap64 (t.count + 1) ≤ t.capacity
    rw [hw]
    omega
  · show (storage t).take (wrap64 (t.count + 1)) = (storage t).take t.count ++ [x]
    rw [hw, List.take_succ]
    congr 1
    rw [List.getD_eq_getElem?_getD, List.getElem?_eq_getElem (by omega)] at hcell
    rw [List.getElem?_eq_getElem (by omega)]
    simp only [Option.getD_some] at hcell
    rw [hcell]
    rfl

/-- A thread inside the critical section is the holder of the mutex: it is the
last thread of `order` and every thread before it is done. -/
theorem holder_of_inside (inputs : List (Option (Nat → Nat) × PlatformClock)) (σ : Shared)
    (order : List Nat) (i : Nat) (hinv : SharedInv inputs σ order)
    (h1 : pcAt σ i ≠ Pc.lock) (h2 : pcAt σ i ≠ Pc.done) :
    σ.mutex = true ∧ i < inputs.length ∧
    ∃ before, order = before ++ [i] ∧ i ∉ before ∧ (∀ j ∈ before, pcAt σ j = Pc.done) ∧
      holderPhase inputs σ.timer before i (pcAt σ i) := by
  obtain ⟨hlen, hnd, hmem, _, hfree, hheld⟩ := hinv
  have hi : i < inputs.length := by
    rw [← hlen]
    exact lt_of_pcAt_ne_done σ i h2
  have hin : i ∈ order := (hmem i).mpr ⟨hi, h1⟩
  have hm : σ.mutex = true := by
    cases hmx : σ.mutex with
    | true => rfl
    | false => exact absurd ((hfree hmx).1 i hin) h2
  obtain ⟨before, h, ho, hb, hph⟩ := hheld hm
  have hih : i = h := by
    rw [ho, List.mem_append, List.mem_singleton] at hin
    rcases hin with hin | hin
    · exact absurd (hb i hin) h2
    · exact hin
  subst hih
  refine ⟨hm, hi, before, ho, ?_, hb, hph⟩
  intro hib
  exact h2 (hb i hib)

/-- The holder moves on inside the critical section. -/
theorem holder_advance (inputs : List (Option (Nat → Nat) × PlatformClock)) (σ : Shared)
    (order before : List Nat) (i : Nat) (pc : Pc) (timer : ProTi)
    (hinv : SharedInv inputs σ order) (hm : σ.mutex = true) (ho : order = before ++ [i])
    (hib : i ∉ before) (hb : ∀ j ∈ before, pcAt σ j = Pc.done)
    (hold : pcAt σ i ≠ Pc.lock) (hi : i < inputs.length) (hpc : pc ≠ Pc.lock)
    (hwf : WF timer) (hph : holderPhase inputs timer before i pc) :
    SharedInv inputs (Shared.mk timer σ.mutex (σ.pcs.set i pc)) order := by
  obtain ⟨hlen, hnd, hmem, _, _, _⟩ := hinv
  have hil : i < σ.pcs.length := by omega
  have hself : pcAt (Shared.mk timer σ.mutex (σ.pcs.set i pc)) i = pc :=
    getD_set_self σ.pcs i pc Pc.done hil
  have hne : ∀ j, j ≠ i → pcAt (Shared.mk timer σ.mutex (σ.pcs.set i pc)) j = pcAt σ j :=
    fun j hj => getD_set_ne σ.pcs i j pc Pc.done hj
  refine ⟨?_, hnd, ?_, hwf, ?_, ?_⟩
  · show (σ.pcs.set i pc).length = inputs.length
    rw [List.length_set]
    exact hlen
  · intro j
    by_cases hj : j = i
    · subst hj
      rw [hself, hmem j]
      exact ⟨fun _ => ⟨hi, hpc⟩, fun _ => ⟨hi, hold⟩⟩
    · rw [hne j hj]
      exact hmem j
  · intro hfalse
    have : σ.mutex = false := hfalse
    rw [hm] at this
    cases this
  · intro _
    refine ⟨before, i, ho, ?_, ?_⟩
    · intro j hj
      have hji : j ≠ i := fun e => hib (e ▸ hj)
      rw [hne j hji]
      exact hb j hj
    · rw [hself]
      exact hph

/-- One step of any thread keeps the invariant and is never an undefined access. -/
theorem threadStep_inv (inputs : List (Option (Nat → Nat) × PlatformClock)) (σ : Shared)
    (order : List Nat) (i : Nat)
    (halloc : ∀ j, j < inputs.length → (inputOf inputs j).1.isSome = true)
    (hN : inputs.length ≤ 2 ^ 60) (hinv : SharedInv inputs σ order) :
    ∃ σ' order', threadStep inputs σ i = Outcome.ok σ' ∧ SharedInv inputs σ' order' := by
  have hinv0 := hinv
  obtain ⟨hlen, hnd, hmem, hwf, hfree, hheld⟩ := hinv
  have hbound : order.length ≤ inputs.length :=
    length_le_of_nodup_lt order inputs.length hnd (fun x hx => ((hmem x).mp hx).1)
  cases hpc : pcAt σ i with
  | lock =>
      have hi : i < inputs.length := by
        rw [← hlen]
        exact lt_of_pcAt_ne_done σ i (by rw [hpc]; decide)
      have hil : i < σ.pcs.length := by omega
      cases hm : σ.mutex with
      | true =>
          refine ⟨σ, order, ?_, hinv0⟩
          simp only [threadStep, hpc, hm, if_true]
      | false =>
          have hnot : i ∉ order := by
            intro hin
            exact ((hmem i).mp hin).2 hpc
          obtain ⟨hdone, hent⟩ := hfree hm
          have hself : pcAt (Shared.mk σ.timer true (σ.pcs.set i Pc.grow)) i = Pc.grow :=
            getD_set_self σ.pcs i Pc.grow Pc.done hil
          have hne : ∀ j, j ≠ i →
              pcAt (Shared.mk σ.timer true (σ.pcs.set i Pc.grow)) j = pcAt σ j :=
            fun j hj => getD_set_ne σ.pcs i j Pc.grow Pc.done hj
          refine ⟨Shared.mk σ.timer true (σ.pcs.set i Pc.grow), order ++ [i], ?_, ?_, ?_, ?_,
            hwf, ?_, ?_⟩
          · simp only [threadStep, hpc, hm]
            rfl
          · show (σ.pcs.set i Pc.grow).length = inputs.length
            rw [List.length_set]
            exact hlen
          · rw [List.nodup_append]
            refine ⟨hnd, List.nodup_singleton i, ?_⟩
            intro a ha hb
            rw [List.mem_singleton] at hb
            exact hnot (hb ▸ ha)
          · intro j
            rw [List.mem_append, List.mem_singleton]
            by_cases hj : j = i
            · subst hj
              rw [hself]
              exact ⟨fun _ => ⟨hi, by decide⟩, fun _ => Or.inr rfl⟩
            · rw [hne j hj, hmem j]
              exact ⟨fun h => h.elim id (fun e => absurd e hj), fun h => Or.inl h⟩
          · intro hfalse
            cases hfalse
          · intro _
            refine ⟨order, i, rfl, ?_, ?_⟩
            · intro j hj
              have hji : j ≠ i := fun e => hnot (e ▸ hj)
              rw [hne j hji]
              exact hdone j hj
            · rw [hself]
              exact hent
  | grow =>
      obtain ⟨hm, hi, before, ho, hib, hb, hph⟩ :=
        holder_of_inside inputs σ order i hinv0 (by rw [hpc]; decide) (by rw [hpc]; decide)
      rw [hpc] at hph
      have hph' : entries σ.timer = before.map (tickOf inputs) := hph
      have hcount : σ.timer.count < 2 ^ 60 := by
        have h1 := entries_length σ.timer hwf
        rw [hph', List.length_map] at h1
        have h2 : order.length = before.length + 1 := by
          rw [ho, List.length_append]
          rfl
        omega
      obtain ⟨hwf1, he1, hroom1⟩ :=
        startGrow_spec σ.timer (inputOf inputs i).1 hwf (halloc i hi) hcount
      refine ⟨Shared.mk (startGrow σ.timer (inputOf inputs i).1) σ.mutex (σ.pcs.set i Pc.store),
        order, ?_, ?_⟩
      · simp only [threadStep, hpc]
      · exact holder_advance inputs σ order before i Pc.store _ hinv0 hm ho hib hb
          (by rw [hpc]; decide) hi (by decide) hwf1 ⟨he1.trans hph', hroom1⟩
  | store =>
      obtain ⟨hm, hi, before, ho, hib, hb, hph⟩ :=
        holder_of_inside inputs σ order i hinv0 (by rw [hpc]; decide) (by rw [hpc]; decide)
      rw [hpc] at hph
      have hph' : entries σ.timer = before.map (tickOf inputs)
          ∧ σ.timer.count < σ.timer.capacity := hph
      obtain ⟨t2, hs, hwf2, he2, hc2, hcap2, hcell2⟩ :=
        startStore_spec σ.timer (inputOf inputs i).2 hwf hph'.2
      refine ⟨Shared.mk t2 σ.mutex (σ.pcs.set i Pc.inc), order, ?_, ?_⟩
      · simp only [threadStep, hpc, hs]
      · exact holder_advance inputs σ order before i Pc.inc _ hinv0 hm ho hib hb
          (by rw [hpc]; decide) hi (by decide) hwf2
          ⟨he2.trans hph'.1, by rw [hc2, hcap2]; exact hph'.2, hcell2⟩
  | inc =>
      obtain ⟨hm, hi, before, ho, hib, hb, hph⟩ :=
        holder_of_inside inputs σ order i hinv0 (by rw [hpc]; decide) (by rw [hpc]; decide)
      rw [hpc] at hph
      have hph' : entries σ.timer = before.map (tickOf inputs)
          ∧ σ.timer.count < σ.timer.capacity
          ∧ (storage σ.timer).getD σ.timer.count 0 = tickOf inputs i := hph
      obtain ⟨hwf3, he3⟩ := startInc_spec σ.timer (tickOf inputs i) hwf hph'.2.1 hph'.2.2
      refine ⟨Shared.mk (startInc σ.timer) σ.mutex (σ.pcs.set i Pc.unlock), order, ?_, ?_⟩
      · simp only [threadStep, hpc]
      · refine holder_advance inputs σ order before i Pc.unlock _ hinv0 hm ho hib hb
          (by rw [hpc]; decide) hi (by decide) hwf3 ?_
        show entries (startInc σ.timer) = (before ++ [i]).map (tickOf inputs)
        rw [he3, hph'.1, List.map_append]
        rfl
  | unlock =>
      obtain ⟨hm, hi, before, ho, hib, hb, hph⟩ :=
        holder_of_inside inputs σ order i hinv0 (by rw [hpc]; decide) (by rw [hpc]; decide)
      rw [hpc] at hph
      have hph' : entries σ.timer = (before ++ [i]).map (tickOf inputs) := hph
      have hil : i < σ.pcs.length := by omega
      have hself : pcAt (Shared.mk σ.timer false (σ.pcs.set i Pc.done)) i = Pc.done :=
        getD_set_self σ.pcs i Pc.done Pc.done hil
      have hne : ∀ j, j ≠ i →
          pcAt (Shared.mk σ.timer false (σ.pcs.set i Pc.done)) j = pcAt σ j :=
        fun j hj => getD_set_ne σ.pcs i j Pc.done Pc.done hj
      refine ⟨Shared.mk σ.timer false (σ.pcs.set i Pc.done), order, ?_, ?_, hnd, ?_, hwf,
        ?_, ?_⟩
      · simp only [threadStep, hpc]
      · show (σ.pcs.set i Pc.done).length = inputs.length
        rw [List.length_set]
        exact hlen
      · intro j
        by_cases hj : j = i
        · subst hj
          rw [hself, hmem j, hpc]
          exact ⟨fun _ => ⟨hi, by decide⟩, fun _ => ⟨hi, by decide⟩⟩
        · rw [hne j hj]
          exact hmem j
      · intro _
        refine ⟨?_, ?_⟩
        · intro j hj
          by_cases hji : j = i
          · subst hji
            exact hself
          · rw [hne j hji]
            rw [ho, List.mem_append, List.mem_singleton] at hj
            rcases hj with hj | hj
            · exact hb j hj
            · exact absurd hj hji
        · show entries σ.timer = order.map (tickOf inputs)
          rw [hph', ho]
      · intro hfalse
        cases hfalse
  | done =>
      refine ⟨σ, order, ?_, hinv0⟩
      simp only [threadStep, hpc]

/-- Every interleaving keeps the invariant and never makes an undefined access. -/
theorem runSchedule_inv (inputs : List (Option (Nat → Nat) × PlatformClock))
    (halloc : ∀ j, j < inputs.length → (inputOf inputs j).1.isSome = true)
    (hN : inputs.length ≤ 2 ^ 60) (sched : List Nat) :
    ∀ (σ : Shared) (order : List Nat), SharedInv inputs σ order →
    ∃ σ' order', runSchedule inputs σ sched = Outcome.ok σ' ∧ SharedInv inputs σ' order' := by
  induction sched with
  | nil =>
      intro σ order hinv
      exact ⟨σ, order, rfl, hinv⟩
  | cons i sched ih =>
      intro σ order hinv
      obtain ⟨σ1, order1, hs, hinv1⟩ := threadStep_inv inputs σ order i halloc hN hinv
      obtain ⟨σ2, order2, hr, hinv2⟩ := ih σ1 order1 hinv1
      refine ⟨σ2, order2, ?_, hinv2⟩
      simp only [runSchedule, hs]
      exact hr

theorem spawn_inv (timer0 : ProTi) (inputs : List (Option (Nat → Nat) × PlatformClock)) :
    SharedInv inputs (spawn timer0 inputs) [] := by
  have hpc : ∀ i, i < inputs.length → pcAt (spawn timer0 inputs) i = Pc.lock := by
    intro i hi
    unfold pcAt spawn
    rw [List.getD_eq_getElem?_getD, List.getElem?_replicate_of_lt hi]
    rfl
  refine ⟨?_, List.nodup_nil, ?_, init_wf timer0, ?_, ?_⟩
  · show (List.replicate inputs.length Pc.lock).length = inputs.length
    exact List.length_replicate _ _
  · intro i
    constructor
    · intro h
      cases h
    · intro h
      exact absurd (hpc i h.1) h.2
  · intro _
    refine ⟨?_, rfl⟩
    intro i h
    cases h
  · intro h
    cases h

theorem inputOf_mem (inputs : List (Option (Nat → Nat) × PlatformClock)) (j : Nat)
    (hj : j < inputs.length) : inputOf inputs j ∈ inputs := by
  unfold inputOf
  rw [List.getD_eq_getElem?_getD, List.getElem?_eq_getElem hj]
  exact List.getElem_mem hj

/-- C11: threads that each call `ProTi_Start` once on one shared recorder, under
the mutex, in any interleaving of their steps (blocks granted, at most `2 ^ 60`
threads): no interleaving makes an undefined access; when all threads have
returned, the mutex is free, `ProTi_GetTimestampCount` returns the number of
threads and the recorded entries are the ticks of the threads, each thread once,
in the order the threads took the lock; and as long as a thread has not
returned, some thread can step. -/
theorem C11_concurrent_starts_all_recorded (timer0 : ProTi)
    (inputs : List (Option (Nat → Nat) × PlatformClock)) (sched : List Nat)
    (halloc : ∀ x ∈ inputs, x.1.isSome = true) (hN : inputs.length ≤ 2 ^ 60) :
    ∃ σ, runSchedule inputs (spawn timer0 inputs) sched = Outcome.ok σ ∧
      (allDone σ = true →
        σ.mutex = false ∧
        (ProTi_GetTimestampCount σ.timer).2 = inputs.length ∧
        ∃ order : List Nat, List.Perm order (List.range inputs.length) ∧
          entries σ.timer = order.map (tickOf inputs)) ∧
      (allDone σ = false → ∃ i, i < inputs.length ∧ enabled σ i = true) := by
  obtain ⟨σ, order, hr, hinv⟩ :=
    runSchedule_inv inputs (fun j hj => halloc _ (inputOf_mem inputs j hj)) hN sched
      (spawn timer0 inputs) [] (spawn_inv timer0 inputs)
  obtain ⟨hlen, hnd, hmem, hwf, hfree, hheld⟩ := hinv
  refine ⟨σ, hr, ?_, ?_⟩
  · intro hall
    have hdone : ∀ i, i < inputs.length → pcAt σ i = Pc.done := by
      intro i hi
      unfold allDone at hall
      rw [List.all_eq_true] at hall
      have hil : i < σ.pcs.length := by omega
      have := hall (σ.pcs[i]) (List.getElem_mem hil)
      unfold pcAt
      rw [List.getD_eq_getElem?_getD, List.getElem?_eq_getElem hil]
      exact of_decide_eq_true this
    have hm : σ.mutex = false := by
      cases hmx : σ.mutex with
      | false => rfl
      | true =>
          obtain ⟨before, h, ho, _, hph⟩ := hheld hmx
          have hh : h ∈ order := by
            rw [ho]
            exact List.mem_append_right _ (List.mem_singleton.mpr rfl)
          rw [hdone h ((hmem h).mp hh).1] at hph
          exact absurd hph id
    have hperm : List.Perm order (List.range inputs.length) := by
      rw [List.perm_ext_iff_of_nodup hnd (List.nodup_range _)]
      intro i
      rw [List.mem_range, hmem i]
      constructor
      · exact fun h => h.1
      · intro hi
        refine ⟨hi, ?_⟩
        rw [hdone i hi]
        decide
    obtain ⟨_, hent⟩ := hfree hm
    refine ⟨hm, ?_, order, hperm, hent⟩
    show σ.timer.count = inputs.length
    rw [← entries_length σ.timer hwf, hent, List.length_map, hperm.length_eq,
      List.length_range]
  · intro hall
    cases hmx : σ.mutex with
    | true =>
        obtain ⟨before, h, ho, _, hph⟩ := hheld hmx
        have hh : h ∈ order := by
          rw [ho]
          exact List.mem_append_right _ (List.mem_singleton.mpr rfl)
        refine ⟨h, ((hmem h).mp hh).1, ?_⟩
        unfold enabled
        cases hpc : pcAt σ h with
        | lock =>
            rw [hpc] at hph
            exact absurd hph id
        | done =>
            rw [hpc] at hph
            exact absurd hph id
        | grow => rfl
        | store => rfl
        | inc => rfl
        | unlock => rfl
    | false =>
        have hex : ∃ pc ∈ σ.pcs, pc ≠ Pc.done := by
          by_contra hcon
          push_neg at hcon
          have : allDone σ = true := by
            unfold allDone
            rw [List.all_eq_true]
            intro pc hpc
            exact decide_eq_true (hcon pc hpc)
          rw [this] at hall
          cases hall
        obtain ⟨pc, hpcm, hpcne⟩ := hex
        obtain ⟨i, hil, hget⟩ := List.mem_iff_getElem.mp hpcm
        have hpcat : pcAt σ i = pc := by
          unfold pcAt
          rw [List.getD_eq_getElem?_getD, List.getElem?_eq_getElem hil, hget]
          rfl
        have hi : i < inputs.length := by omega
        have hlock : pcAt σ i = Pc.lock := by
          by_contra hnl
          have hin : i ∈ order := (hmem i).mpr ⟨hi, hnl⟩
          have := (hfree hmx).1 i hin
          rw [hpcat] at this
          exact hpcne this
        refine ⟨i, hi, ?_⟩
        unfold enabled
        rw [hlock, hmx]
        rfl

theorem C11_concurrent_starts_all_recorded_witness :
    ∃ σ, runSchedule twoThreads (spawn blankTimer twoThreads) sampleSchedule = Outcome.ok σ ∧
      allDone σ = true ∧ σ.mutex = false ∧
      (ProTi_GetTimestampCount σ.timer).2 = twoThreads.length ∧
      (∃ order : List Nat, List.Perm order (List.range twoThreads.length) ∧
        entries σ.timer = order.map (tickOf twoThreads)) ∧
      entries σ.timer = [200, 100] := by
  obtain ⟨σ, hr, hdone, _⟩ :=
    C11_concurrent_starts_all_recorded blankTimer twoThreads sampleSchedule (by decide)
      (by decide)
  have hval : runSchedule twoThreads (spawn blankTimer twoThreads) sampleSchedule
      = Outcome.ok (Shared.mk (ProTi.mk (some [200, 100]) 2 2) false [Pc.done, Pc.done]) := by
    decide
  have hσ : σ = Shared.mk (ProTi.mk (some [200, 100]) 2 2) false [Pc.done, Pc.done] := by
    rw [hr] at hval
    injection hval
  have hall : allDone σ = true := by
    rw [hσ]
    decide
  obtain ⟨h1, h2, h3⟩ := hdone hall
  refine ⟨σ, hr, hall, h1, h2, h3, ?_⟩
  rw [hσ]
  decide


end ProfilingTimer
